import Mathlib

/-!
Shallow embedding of the vectorai in-memory vector database
(`app/core/indexing.py`, `app/core/database.py`, and the service layer in
`app/services/`), together with theorems checking the natural-language
specification of the repository against the code.

Modelling conventions:
* Python floats are modelled as rationals.  Every float value exercised by the
  concrete inputs below (small integers and quotients with exact square norms)
  is exactly representable as a binary double, so on those inputs rational
  arithmetic coincides with the float arithmetic of the source.
* `np.linalg.norm` is modelled through a rational square root (`ratSqrt`),
  which is exact whenever the radicand is the square of a rational.  No
  theorem below depends on the value of an inexact square root: the ordering
  facts are proved for arbitrary similarity-score lists.
* `np.argsort` (ascending, returning indices) is modelled as a stable
  insertion sort of the index list.  NumPy's introsort is not documented
  stable in general, but on arrays of at most 16 elements it runs plain
  insertion sort, which is stable; every concrete array used below is tiny.
* Mutable object state is passed explicitly; `time.time()` becomes an explicit
  `now` argument, and NumPy's process-global RNG becomes an explicit stream of
  rational draws consumed by `np.random.randn`.
* Python exceptions are modelled by `Except Unit`.
-/

namespace VectorDB

/-- An embedding vector, `list[float]` in the source. -/
abbrev Vec := List ℚ

/-- Model of `np.dot` on equal-length vectors (`BaseIndex._cosine_similarity`,
`LSHIndex._hash_vector`).  On ragged inputs NumPy raises; the model truncates
to the shorter vector, a case no checked claim reaches. -/
def dotList (a b : Vec) : ℚ := (List.zipWith (fun x y => x * y) a b).sum

/-- Floor square root of a natural number, by bounded linear search (the
concrete radicands below are tiny). -/
def natSqrtLin (n : Nat) : Nat :=
  ((List.range (n + 1)).filter (fun r => r * r ≤ n)).foldl max 0

/-- Rational square root, exact on squares of rationals. -/
def ratSqrt (q : ℚ) : ℚ := (natSqrtLin q.num.toNat : ℚ) / (natSqrtLin q.den : ℚ)

/-- Model of `np.linalg.norm`, exact whenever `dotList a a` is a rational square.
`normQ a = 0` holds exactly when the float norm is `0.0`: the radicand is a
sum of squares, and `ratSqrt` of a positive rational is positive. -/
def normQ (a : Vec) : ℚ := ratSqrt (dotList a a)

/-- Model of `BaseIndex._cosine_similarity` (`app/core/indexing.py` lines 46-51):
`dot(a,b)/(‖a‖·‖b‖)`, and `0.0` when either norm is zero. -/
def cosineSim (a b : Vec) : ℚ :=
  if normQ a = 0 ∨ normQ b = 0 then 0 else dotList a b / (normQ a * normQ b)

/-- A Python value stored in chunk metadata or used in a filter
(JSON scalars and arrays). -/
inductive PyVal where
  | none
  | bool (b : Bool)
  | num (q : ℚ)
  | str (s : String)
  | list (xs : List PyVal)
deriving Repr, Inhabited

/-- Python treats `bool` as a numeric type (`True == 1`); this extracts the
numeric content of a value when it has one. -/
def PyVal.toNum : PyVal → Option ℚ
  | .bool b => some (if b then 1 else 0)
  | .num q => some q
  | _ => Option.none

/-- Total comparison of rationals, `compare` written out explicitly. -/
def compareQ (a b : ℚ) : Ordering :=
  if a < b then .lt else if a = b then .eq else .gt

/-- Python string comparison: lexicographic by code point. -/
def compareStr (a b : String) : Ordering :=
  if a < b then .lt else if a = b then .eq else .gt

mutual

/-- Python `==` (never raises): numeric kinds compare by value, strings by
content, lists elementwise, and values of unrelated types are unequal. -/
def pyEq : PyVal → PyVal → Bool
  | x, y =>
    match x.toNum, y.toNum with
    | some a, some b => decide (a = b)
    | _, _ =>
      match x, y with
      | .str a, .str b => decide (a = b)
      | .list a, .list b => pyEqList a b
      | .none, .none => true
      | _, _ => false

def pyEqList : List PyVal → List PyVal → Bool
  | [], [] => true
  | a :: xs, b :: ys => pyEq a b && pyEqList xs ys
  | _, _ => false

end

mutual

/-- Python's rich comparison (`<`, `<=`, `>`, `>=`): numeric kinds and strings
are ordered, lists are ordered lexicographically (comparing the first pair of
non-`==` elements), and any other pairing raises `TypeError`, modelled as
`.error ()`. -/
def pyCompare : PyVal → PyVal → Except Unit Ordering
  | x, y =>
    match x.toNum, y.toNum with
    | some a, some b => .ok (compareQ a b)
    | _, _ =>
      match x, y with
      | .str a, .str b => .ok (compareStr a b)
      | .list a, .list b => pyCompareList a b
      | _, _ => .error ()

def pyCompareList : List PyVal → List PyVal → Except Unit Ordering
  | [], [] => .ok .eq
  | [], _ :: _ => .ok .lt
  | _ :: _, [] => .ok .gt
  | a :: xs, b :: ys => if pyEq a b then pyCompareList xs ys else pyCompare a b

end

/-- Python `x in container`: membership by `==` for lists, substring test for
strings (whose left operand must itself be a string), `TypeError` otherwise. -/
def pyIn (x container : PyVal) : Except Unit Bool :=
  match container with
  | .list xs => .ok (xs.any (fun e => pyEq e x))
  | .str s =>
    match x with
    | .str sub => .ok (decide (sub.toList <:+: s.toList))
    | _ => .error ()
  | _ => .error ()

/-- A filter predicate for one metadata key (`§4.4` of the spec,
`SearchService._chunk_matches_filters`): either a raw value compared by
equality, or an object `{"operator": op, "value": v}`. -/
inductive FilterPred where
  | raw (v : PyVal)
  | withOp (op : String) (value : PyVal)
deriving Repr, Inhabited

/-- The type of the oracle standing for Python's `re.search` arm of
`_evaluate_filter_operator` (pattern, then `str(chunk_value)`-side operand).
Regular-expression matching is a boundary adapter here; no checked claim
reaches this arm, so the definitions are parametric in it. -/
abbrev ReOracle := PyVal → PyVal → Except Unit Bool

/-- Model of `SearchService._evaluate_filter_operator` (`app/services/search_service.py`
lines 95-125).  `gt`/`gte`/`lt`/`lte` use Python's rich comparison, which
raises `TypeError` on non-orderable pairs; `contains` is a case-insensitive
substring test returning `False` on non-strings; `in`/`not_in` use Python
membership; `regex` delegates to `re.search` with `re.error` already mapped to
`False` inside the source's `try`; an unknown operator falls back to `==`. -/
def evaluateFilterOperator (re : ReOracle) (chunkValue : PyVal) (op : String)
    (filterValue : PyVal) : Except Unit Bool :=
  if op = "gt" then do
    let o ← pyCompare chunkValue filterValue
    pure (o == Ordering.gt)
  else if op = "gte" then do
    let o ← pyCompare chunkValue filterValue
    pure (o == Ordering.gt || o == Ordering.eq)
  else if op = "lt" then do
    let o ← pyCompare chunkValue filterValue
    pure (o == Ordering.lt)
  else if op = "lte" then do
    let o ← pyCompare chunkValue filterValue
    pure (o == Ordering.lt || o == Ordering.eq)
  else if op = "contains" then
    match chunkValue, filterValue with
    | .str a, .str b => .ok (decide (b.toLower.toList <:+: a.toLower.toList))
    | _, _ => .ok false
  else if op = "in" then
    pyIn chunkValue filterValue
  else if op = "not_in" then do
    let b ← pyIn chunkValue filterValue
    pure (!b)
  else if op = "regex" then
    re filterValue chunkValue
  else
    .ok (pyEq chunkValue filterValue)

/-- Model of `SearchService._chunk_matches_filters` (lines 75-93), acting on a chunk's
metadata mapping: a missing key or a failing predicate yields `False`; an
exception raised by an operator propagates. -/
def chunkMatchesFilters (re : ReOracle) (md : List (String × PyVal))
    (filters : List (String × FilterPred)) : Except Unit Bool :=
  match filters with
  | [] => .ok true
  | (key, p) :: rest =>
    match md.lookup key with
    | Option.none => .ok false
    | some cv =>
      match p with
      | .raw v =>
        if pyEq cv v then chunkMatchesFilters re md rest else .ok false
      | .withOp op v => do
        let b ← evaluateFilterOperator re cv op v
        if b then chunkMatchesFilters re md rest else .ok false

/-- Model of `Chunk` (`app/models/base.py`): the search unit.  Timestamps are not
touched by any operation checked here and are omitted. -/
structure Chunk where
  id : String
  text : String
  embedding : Vec
  metadata : List (String × PyVal)
deriving Repr

instance : Inhabited Chunk := ⟨⟨"", "", [], []⟩⟩

/-! ### Top-k selection shared by the three `search` implementations

All three `search` methods run `np.argsort(similarities)[::-1][:k]` and then
select chunks and scores at those indices. -/

/-- Model of `np.argsort(sims)` (ascending, indices).  Stable sort of the index list;
see the header note on NumPy's sort stability (on arrays of at most 16
elements NumPy literally runs insertion sort). -/
def argsortAsc (sims : List ℚ) : List Nat :=
  List.insertionSort (fun i j => sims.getD i 0 ≤ sims.getD j 0) (List.range sims.length)

/-- Model of `np.argsort(sims)[::-1][:k]`. -/
def topKIdx (sims : List ℚ) (k : Nat) : List Nat :=
  (argsortAsc sims).reverse.take k

/-- Model of `results = [items[i] for i in indices]; scores = [sims[i] for i in indices]`. -/
def selectTopK (items : List Chunk) (sims : List ℚ) (k : Nat) :
    List Chunk × List ℚ :=
  ((topKIdx sims k).map (fun i => items.getD i default),
   (topKIdx sims k).map (fun i => sims.getD i 0))

/-! ### KD-tree (`KDTreeIndex`) -/

/-- A node of `KDTreeIndex._build_tree`'s dict-based tree:
`{"point": …, "chunk_index": …, "left": …, "right": …}`, with `nil` for
Python `None`. -/
inductive KDTree where
  | nil
  | node (point : Vec) (chunkIndex : Nat) (left right : KDTree)
deriving Repr, DecidableEq

/-- Position of the first occurrence of `e`, if any. -/
def findVecIdx (l : List Vec) (e : Vec) : Option Nat :=
  match l with
  | [] => Option.none
  | v :: rest =>
    if v = e then some 0 else (findVecIdx rest e).map (fun i => i + 1)

/-- Model of `KDTreeIndex._find_embedding_index`: index of the first equal embedding in
the index's embedding list, defaulting to `0`. -/
def findEmbeddingIndex (all : List Vec) (e : Vec) : Nat :=
  (findVecIdx all e).getD 0

/-- The comparison relation of `sorted(embeddings, key=lambda x: x[axis])`.
Python raises `IndexError` on an out-of-range axis; the model totalises with
default `0`, a case no checked claim reaches (all claims concern libraries of
uniform dimension). -/
def axisRel (axis : Nat) (a b : Vec) : Prop :=
  a.getD axis 0 ≤ b.getD axis 0

instance (axis : Nat) : DecidableRel (axisRel axis) :=
  fun a b => inferInstanceAs (Decidable (a.getD axis 0 ≤ b.getD axis 0))

/-- Model of `sorted(embeddings, key=lambda x: x[axis])` — Python's stable Timsort,
modelled by a stable insertion sort. -/
def sortByAxis (axis : Nat) (embs : List Vec) : List Vec :=
  List.insertionSort (axisRel axis) embs

/-- Model of `KDTreeIndex._build_tree` (`app/core/indexing.py` lines 109-134):
split on axis `depth % dim`, place the element at index `len // 2` of the
axis-sorted list at the node, recurse on the two remaining halves.  `all` is
the index's full embedding list, used only by `_find_embedding_index`. -/
def buildTree (all : List Vec) (embs : List Vec) (depth dim : Nat) : KDTree :=
  if embs.length = 0 then .nil
  else if embs.length = 1 then
    .node (embs.getD 0 []) (findEmbeddingIndex all (embs.getD 0 [])) .nil .nil
  else
    .node ((sortByAxis (depth % dim) embs).getD (embs.length / 2) [])
      (findEmbeddingIndex all ((sortByAxis (depth % dim) embs).getD (embs.length / 2) []))
      (buildTree all ((sortByAxis (depth % dim) embs).take (embs.length / 2)) (depth + 1) dim)
      (buildTree all ((sortByAxis (depth % dim) embs).drop (embs.length / 2 + 1)) (depth + 1) dim)
termination_by embs.length
decreasing_by
  · simp only [List.length_take, sortByAxis, List.length_insertionSort]
    omega
  · simp only [List.length_drop, sortByAxis, List.length_insertionSort]
    omega

/-- Model of `KDTreeIndex._search_recursive` (lines 170-195): collect the current node,
recurse into the query-side subtree, and into the other side only when the
distance to the splitting plane is below the exploration threshold `0.1`.
Returns the candidate list in visit order as `(point, chunk_index)` pairs. -/
def searchRecursive (t : KDTree) (q : Vec) (depth dim : Nat) : List (Vec × Nat) :=
  match t with
  | .nil => []
  | .node p ci l r =>
    if q.getD (depth % dim) 0 < p.getD (depth % dim) 0 then
      (p, ci) :: (searchRecursive l q (depth + 1) dim ++
        (if |q.getD (depth % dim) 0 - p.getD (depth % dim) 0| < 1 / 10 then
          searchRecursive r q (depth + 1) dim else []))
    else
      (p, ci) :: (searchRecursive r q (depth + 1) dim ++
        (if |q.getD (depth % dim) 0 - p.getD (depth % dim) 0| < 1 / 10 then
          searchRecursive l q (depth + 1) dim else []))

/-! ### LSH (`LSHIndex`) -/

/-- The modulus of CPython's numeric hash, `2^61 - 1`. -/
def pyHashPrime : Nat := 2 ^ 61 - 1

/-- CPython's `hash` of a float, which equals the hash of the reduced
fraction: `|num| * den^(P-2) mod P` with the sign of the number, and `-1`
mapped to `-2`.  For an integral value `n ≥ 0` below `P` this is just `n`. -/
def pyHashQ (x : ℚ) : Int :=
  let mag : Nat :=
    if x.den = 1 then x.num.natAbs % pyHashPrime
    else x.num.natAbs * (x.den ^ (pyHashPrime - 2) % pyHashPrime) % pyHashPrime
  let s : Int := if x.num < 0 then -(mag : Int) else (mag : Int)
  if s = -1 then -2 else s

/-- Model of `LSHIndex._hash_vector` (lines 236-240): `hash(np.dot(v, plane)) % B`. -/
def hashVector (v plane : Vec) (buckets : Nat) : Int :=
  pyHashQ (dotList v plane) % (buckets : Int)

/-- Model of `np.random.randn(n)` against the explicit stream of RNG draws. -/
def randn (n : Nat) (rng : List ℚ) : Vec × List ℚ :=
  (rng.take n, rng.drop n)

/-- Model of `[np.random.randn(dim) for _ in range(num_hashes)]`. -/
def drawPlanes (h dim : Nat) (rng : List ℚ) : List Vec × List ℚ :=
  match h with
  | 0 => ([], rng)
  | m + 1 =>
    let pr := randn dim rng
    let rest := drawPlanes m dim pr.2
    (pr.1 :: rest.1, rest.2)

/-- Insertion into one hash table: append index `i` to bucket `h`, creating
the bucket if absent (`LSHIndex.build` lines 227-232). -/
def tableInsert (t : List (Int × List Nat)) (h : Int) (i : Nat) :
    List (Int × List Nat) :=
  match t with
  | [] => [(h, [i])]
  | (h0, l0) :: rest =>
    if h0 = h then (h0, l0 ++ [i]) :: rest else (h0, l0) :: tableInsert rest h i

/-- One hash table of `LSHIndex.build`: embedding indices inserted in
increasing order into the bucket of their hash under `plane`. -/
def buildTableGo (plane : Vec) (buckets : Nat) (embs : List Vec) (start : Nat)
    (acc : List (Int × List Nat)) : List (Int × List Nat) :=
  match embs with
  | [] => acc
  | e :: rest =>
    buildTableGo plane buckets rest (start + 1)
      (tableInsert acc (hashVector e plane buckets) start)

def buildTable (plane : Vec) (buckets : Nat) (embs : List Vec) :
    List (Int × List Nat) :=
  buildTableGo plane buckets embs 0 []

/-- First-occurrence deduplication, modelling the candidate set
`candidate_indices` of `LSHIndex.search`.  CPython's set iteration order is
implementation-defined; no checked claim depends on the candidate order, only
on membership and on the final similarity sort. -/
def dedupKeepFirst : List Nat → List Nat
  | [] => []
  | a :: rest => a :: dedupKeepFirst (rest.filter (fun x => decide (x ≠ a)))
termination_by l => l.length
decreasing_by
  simp only [List.length_cons]
  exact Nat.lt_succ_of_le (rest.length_filter_le _)

/-! ### The index object (`BaseIndex` and its three subclasses) -/

inductive IndexKind where
  | linear
  | kdtree
  | lsh
deriving Repr, DecidableEq

/-- The state of a `BaseIndex` object.  The three Python subclasses are merged
into one structure with a `kind` tag; fields a kind does not use keep their
initial values (`tree`/`dimension` belong to `KDTreeIndex`,
`num_hashes`/`num_buckets`/`random_planes`/`hash_tables` to `LSHIndex`;
`dimension = 0` stands for Python `None`). -/
structure Index where
  kind : IndexKind
  chunks : List Chunk
  embeddings : List Vec
  is_built : Bool
  tree : KDTree
  dimension : Nat
  num_hashes : Nat
  num_buckets : Nat
  random_planes : List Vec
  hash_tables : List (List (Int × List Nat))
deriving Repr

/-- A freshly constructed index (`__init__`). -/
def emptyIndex (k : IndexKind) (numHashes numBuckets : Nat) : Index :=
  ⟨k, [], [], false, .nil, 0, numHashes, numBuckets, [], []⟩

/-- Model of `IndexFactory.create_index` (lines 279-289): unknown type names raise. -/
def createIndex (itype : String) (numHashes numBuckets : Nat) :
    Except Unit Index :=
  if itype = "linear" then .ok (emptyIndex .linear numHashes numBuckets)
  else if itype = "kdtree" then .ok (emptyIndex .kdtree numHashes numBuckets)
  else if itype = "lsh" then .ok (emptyIndex .lsh numHashes numBuckets)
  else .error ()

/-- Model of `BaseIndex.add_chunks` (lines 32-36): append the chunks and their
embeddings to the working set. -/
def Index.addChunks (idx : Index) (cs : List Chunk) : Index :=
  { idx with
    chunks := idx.chunks ++ cs
    embeddings := idx.embeddings ++ cs.map (fun c => c.embedding) }

/-- Model of `build` of the concrete index classes, threading the RNG stream (only
`LSHIndex.build` draws from it).  `LinearSearchIndex.build` merely flips
`is_built`; `KDTreeIndex.build` records the dimension and builds the tree;
`LSHIndex.build` samples `num_hashes` random hyperplanes and hashes every
embedding into each table. -/
def Index.build (idx : Index) (rng : List ℚ) : Index × List ℚ :=
  match idx.kind with
  | .linear => ({ idx with is_built := true }, rng)
  | .kdtree =>
    if idx.embeddings = [] then ({ idx with is_built := true }, rng)
    else
      ({ idx with
          dimension := (idx.embeddings.getD 0 []).length
          tree := buildTree idx.embeddings idx.embeddings 0
            (idx.embeddings.getD 0 []).length
          is_built := true }, rng)
  | .lsh =>
    if idx.embeddings = [] then ({ idx with is_built := true }, rng)
    else
      let pr := drawPlanes idx.num_hashes (idx.embeddings.getD 0 []).length rng
      ({ idx with
          random_planes := pr.1
          hash_tables := pr.1.map (fun p => buildTable p idx.num_buckets idx.embeddings)
          is_built := true }, pr.2)

/-- The candidate indices of `LSHIndex.search` (lines 250-254): union of the
buckets the query hashes into, one per table. -/
def lshCandidateIdx (idx : Index) (q : Vec) : List Nat :=
  dedupKeepFirst
    (((idx.random_planes.zip idx.hash_tables).map
      (fun pt => (pt.2.lookup (hashVector q pt.1 idx.num_buckets)).getD [])).flatten)

/-- Model of `search` of the concrete index classes (`LinearSearchIndex.search` lines
65-84, `KDTreeIndex.search` lines 143-168, `LSHIndex.search` lines 242-273).
All raise `ValueError` when the index is not built, score their candidates by
cosine similarity against the query, and return the top-`k` chunks with their
scores in descending order. -/
def Index.search (idx : Index) (q : Vec) (k : Nat) :
    Except Unit (List Chunk × List ℚ) :=
  if idx.is_built = false then .error ()
  else .ok (
    match idx.kind with
    | .linear =>
      selectTopK idx.chunks (idx.embeddings.map (fun e => cosineSim q e)) k
    | .kdtree =>
      let cands := searchRecursive idx.tree q 0 idx.dimension
      if cands.map (fun c => cosineSim q c.1) = [] then ([], [])
      else
        selectTopK (cands.map (fun c => idx.chunks.getD c.2 default))
          (cands.map (fun c => cosineSim q c.1)) k
    | .lsh =>
      let candIdx := lshCandidateIdx idx q
      if candIdx.map (fun i => cosineSim q (idx.embeddings.getD i [])) = [] then ([], [])
      else
        selectTopK (candIdx.map (fun i => idx.chunks.getD i default))
          (candIdx.map (fun i => cosineSim q (idx.embeddings.getD i []))) k)

/-! ### The store (`ThreadSafeDatabase`, `app/core/database.py`)

Python dicts keep insertion order and have unique keys; they are modelled as
association lists with in-place overwrite.  Locks serialize the operations
modelled here, so each public operation is a plain state transformer. -/

/-- Python dict assignment `m[key] = v`: overwrite in place, else append. -/
def assocSet (m : List (String × α)) (key : String) (v : α) :
    List (String × α) :=
  match m with
  | [] => [(key, v)]
  | (k0, v0) :: rest =>
    if k0 = key then (k0, v) :: rest else (k0, v0) :: assocSet rest key v

/-- Replace the first element satisfying `p` by its image under `f`, or
`none` when no element matches — the `for doc in library.documents: if
doc.id == document_id: … ; return` pattern of the source. -/
def updateFirst (p : α → Bool) (f : α → α) : List α → Option (List α)
  | [] => Option.none
  | a :: rest =>
    if p a then some (f a :: rest)
    else (updateFirst p f rest).map (fun l => a :: l)

/-- Model of `Document` (`app/models/base.py`), with the fields the checked store
operations read or write.  Timestamps are rationals (POSIX seconds). -/
structure Document where
  id : String
  name : String
  metadata : List (String × PyVal)
  chunks : List Chunk
  created_at : ℚ
  updated_at : ℚ
deriving Repr

/-- Model of `Library` (`app/models/base.py`); the store keys libraries by id in its
`_data` dict. -/
structure Library where
  id : String
  name : String
  description : String
  metadata : List (String × PyVal)
  documents : List Document
  index_type : Option String
  created_at : ℚ
  updated_at : ℚ
deriving Repr

/-- The mutable state of `ThreadSafeDatabase`: the entity dict `_data` and the
per-library index dict `_indexes`.  Persistence is write-only and never read
back by the operations checked here, so the snapshot file is not part of the
state. -/
structure DB where
  data : List (String × Library)
  indexes : List (String × Index)
deriving Repr

/-- Model of `ThreadSafeDatabase.search` (lines 363-380): a library id absent from
`_indexes` yields `([], [])`; otherwise the library's index searches (and its
`ValueError` on an unbuilt index propagates). -/
def DB.search (db : DB) (libId : String) (q : Vec) (k : Nat) :
    Except Unit (List Chunk × List ℚ) :=
  match db.indexes.lookup libId with
  | Option.none => .ok ([], [])
  | some idx => idx.search q k

/-- Model of `ThreadSafeDatabase.get_document` (lines 192-208): first document of the
library with the given id. -/
def DB.getDocument (db : DB) (libId docId : String) : Option Document :=
  match db.data.lookup libId with
  | Option.none => Option.none
  | some lib => lib.documents.find? (fun d => decide (d.id = docId))

/-- Model of `ThreadSafeDatabase.add_chunks_to_document` (lines 293-327): extend the
first matching document's chunk list, refresh the timestamps, then append the
chunks to the library's index and rebuild it.  Returns `False` when the
library or document is missing; performs no validation of the chunks. -/
def DB.addChunksToDocument (db : DB) (libId docId : String) (cs : List Chunk)
    (now : ℚ) (rng : List ℚ) : DB × List ℚ × Bool :=
  match db.data.lookup libId with
  | Option.none => (db, rng, false)
  | some lib =>
    match updateFirst (fun d => decide (d.id = docId))
        (fun d => { d with chunks := d.chunks ++ cs, updated_at := now })
        lib.documents with
    | Option.none => (db, rng, false)
    | some docs1 =>
      let lib1 := { lib with documents := docs1, updated_at := now }
      let data1 := assocSet db.data libId lib1
      match db.indexes.lookup libId with
      | Option.none => (⟨data1, db.indexes⟩, rng, true)
      | some idx =>
        let br := (idx.addChunks cs).build rng
        (⟨data1, assocSet db.indexes libId br.1⟩, br.2, true)

/-- Model of `ThreadSafeDatabase.build_index` (lines 330-361): check the library
exists, create a fresh index of the requested type (raising on an unknown
type), add every chunk of every document in order, build, and replace the old
index. -/
def DB.buildIndex (db : DB) (libId itype : String) (numHashes numBuckets : Nat)
    (rng : List ℚ) : Except Unit (DB × List ℚ × Bool) :=
  match db.data.lookup libId with
  | Option.none => .ok (db, rng, false)
  | some lib => do
    let idx0 ← createIndex itype numHashes numBuckets
    let br := (idx0.addChunks ((lib.documents.map (fun d => d.chunks)).flatten)).build rng
    pure (⟨db.data, assocSet db.indexes libId br.1⟩, br.2, true)

/-! ### Document service (`DocumentService.add_chunks_to_document`,
`app/services/document_service.py` lines 85-107) -/

/-- Python whitespace, as stripped by `str.strip()`. -/
def isPySpace (c : Char) : Bool :=
  c = ' ' || c = '\t' || c = '\n' || c = '\r' || c = '\x0b' || c = '\x0c'

/-- Model of `str.strip()` on the character list: drop whitespace from both ends. -/
def pyStrip (l : List Char) : List Char :=
  ((l.dropWhile isPySpace).reverse.dropWhile isPySpace).reverse

/-- The per-chunk validation of `DocumentService.add_chunks_to_document`:
non-blank text (`not chunk.text or not chunk.text.strip()`) and a non-empty
embedding.  (The `isinstance` numeric check is vacuous in the model, where
embeddings are lists of rationals.)  There is no dimension check anywhere on
this path. -/
def chunkValidationOk (c : Chunk) : Bool :=
  decide (pyStrip c.text.toList ≠ []) && decide (c.embedding ≠ [])

/-- Model of `DocumentService.add_chunks_to_document`: raise when the document is
missing, the chunk list is empty, or a chunk fails validation; otherwise
delegate to the store. -/
def serviceAddChunksToDocument (db : DB) (libId docId : String)
    (cs : List Chunk) (now : ℚ) (rng : List ℚ) :
    Except Unit (DB × List ℚ × Bool) :=
  match db.getDocument libId docId with
  | Option.none => .error ()
  | some _ =>
    if cs.isEmpty then .error ()
    else if cs.all chunkValidationOk then .ok (db.addChunksToDocument libId docId cs now rng)
    else .error ()

/-! ### Search service (`SearchService`, `app/services/search_service.py`) -/

/-- Model of `SearchResult` (`app/models/base.py`), without the wall-clock
`search_time_ms` field, which is not modelled. -/
structure SearchResult where
  chunks : List Chunk
  scores : List ℚ
  total_found : Nat
  index_type : String
deriving Repr

/-- Model of `SearchQuery` (`app/models/base.py`). -/
structure SearchQuery where
  query_embedding : Vec
  k : Int
  filters : List (String × FilterPred)
deriving Repr

/-- Model of `SearchService._apply_metadata_filters` (lines 61-73): keep the
`(chunk, score)` pairs whose chunk matches all filters, preserving order. -/
def applyMetadataFilters (re : ReOracle) (chunks : List Chunk) (scores : List ℚ)
    (filters : List (String × FilterPred)) :
    Except Unit (List Chunk × List ℚ) :=
  match chunks, scores with
  | c :: cs, s :: ss => do
    let keep ← chunkMatchesFilters re c.metadata filters
    let rest ← applyMetadataFilters re cs ss filters
    if keep then pure (c :: rest.1, s :: rest.2) else pure rest
  | _, _ => pure ([], [])

/-- Model of `SearchService.search_similar_chunks` (lines 23-59): validate the library,
the query embedding, and `k ∈ [1, 100]`; run the store search; apply metadata
filters when present; report the library's index type. -/
def searchSimilarChunks (re : ReOracle) (db : DB) (libId : String)
    (query : SearchQuery) : Except Unit SearchResult :=
  match db.data.lookup libId with
  | Option.none => .error ()
  | some lib =>
    if query.query_embedding = [] then .error ()
    else if query.k ≤ 0 ∨ 100 < query.k then .error ()
    else do
      let res ← db.search libId query.query_embedding query.k.toNat
      let filtered ←
        if query.filters.isEmpty then pure res
        else applyMetadataFilters re res.1 res.2 query.filters
      pure
        { chunks := filtered.1
          scores := filtered.2
          total_found := filtered.1.length
          index_type := (lib.index_type.getD "unknown") }

/-- The empty `SearchResult` recorded for a failing library
(`search_across_libraries` lines 145-147). -/
def emptySearchResult : SearchResult :=
  { chunks := [], scores := [], total_found := 0, index_type := "unknown" }

/-- Model of `SearchService.search_across_libraries` (lines 127-149): default to all
library ids when none (or an empty list) are given, then search each library,
recording an empty result for any library whose search raises. -/
def searchAcrossLibraries (re : ReOracle) (db : DB) (query : SearchQuery)
    (libraryIds : Option (List String)) : List (String × SearchResult) :=
  let ids :=
    match libraryIds with
    | Option.none => db.data.map Prod.fst
    | some [] => db.data.map Prod.fst
    | some l => l
  ids.foldl
    (fun acc id =>
      assocSet acc id
        (match searchSimilarChunks re db id query with
        | .ok r => r
        | .error _ => emptySearchResult))
    []

/-! ### The dynamic update loops (`ThreadSafeDatabase.update_library` lines
111-136 and `update_document` lines 210-252)

Both loops run `for field, value in updates.items(): if hasattr(obj, field)
and field not in ["id", "created_at"]: setattr(obj, field, value)` and then
stamp `updated_at`.  To model `setattr` with arbitrary dynamic values, the
entities are rendered here with every model field holding a `PyVal`;
`hasattr` holds exactly for the declared pydantic model fields. -/

/-- Model of `Library` as a bag of dynamically-set attributes. -/
structure LibraryObj where
  id : PyVal
  name : PyVal
  description : PyVal
  metadata : PyVal
  documents : PyVal
  index_type : PyVal
  index_built_at : PyVal
  created_at : PyVal
  updated_at : PyVal
deriving Repr

/-- Model of `getattr` restricted to the model fields; `none` means `hasattr` fails. -/
def libGetattr (l : LibraryObj) (f : String) : Option PyVal :=
  if f = "id" then some l.id
  else if f = "name" then some l.name
  else if f = "description" then some l.description
  else if f = "metadata" then some l.metadata
  else if f = "documents" then some l.documents
  else if f = "index_type" then some l.index_type
  else if f = "index_built_at" then some l.index_built_at
  else if f = "created_at" then some l.created_at
  else if f = "updated_at" then some l.updated_at
  else Option.none

/-- Model of `setattr` on the model fields; unknown fields leave the object unchanged
(the source guards every `setattr` with `hasattr`). -/
def libSetattr (l : LibraryObj) (f : String) (v : PyVal) : LibraryObj :=
  if f = "id" then { l with id := v }
  else if f = "name" then { l with name := v }
  else if f = "description" then { l with description := v }
  else if f = "metadata" then { l with metadata := v }
  else if f = "documents" then { l with documents := v }
  else if f = "index_type" then { l with index_type := v }
  else if f = "index_built_at" then { l with index_built_at := v }
  else if f = "created_at" then { l with created_at := v }
  else if f = "updated_at" then { l with updated_at := v }
  else l

/-- The field-update loop of `update_library`, followed by
`library.updated_at = time.time()`. -/
def updateLibraryObj (l : LibraryObj) (updates : List (String × PyVal))
    (now : PyVal) : LibraryObj :=
  let l1 := updates.foldl
    (fun acc fv =>
      if (libGetattr acc fv.1).isSome && !(fv.1 = "id" || fv.1 = "created_at")
      then libSetattr acc fv.1 fv.2 else acc)
    l
  { l1 with updated_at := now }

/-- Model of `ThreadSafeDatabase.update_library`: `None` when the library id is
missing, otherwise the updated object is stored back and returned. -/
def updateLibraryDB (data : List (String × LibraryObj)) (libId : String)
    (updates : List (String × PyVal)) (now : PyVal) :
    Option (List (String × LibraryObj) × LibraryObj) :=
  match data.lookup libId with
  | Option.none => Option.none
  | some lib =>
    let lib1 := updateLibraryObj lib updates now
    some (assocSet data libId lib1, lib1)

/-- Model of `Document` as a bag of dynamically-set attributes. -/
structure DocumentObj where
  id : PyVal
  name : PyVal
  metadata : PyVal
  chunks : PyVal
  created_at : PyVal
  updated_at : PyVal
deriving Repr

def docGetattr (d : DocumentObj) (f : String) : Option PyVal :=
  if f = "id" then some d.id
  else if f = "name" then some d.name
  else if f = "metadata" then some d.metadata
  else if f = "chunks" then some d.chunks
  else if f = "created_at" then some d.created_at
  else if f = "updated_at" then some d.updated_at
  else Option.none

def docSetattr (d : DocumentObj) (f : String) (v : PyVal) : DocumentObj :=
  if f = "id" then { d with id := v }
  else if f = "name" then { d with name := v }
  else if f = "metadata" then { d with metadata := v }
  else if f = "chunks" then { d with chunks := v }
  else if f = "created_at" then { d with created_at := v }
  else if f = "updated_at" then { d with updated_at := v }
  else d

/-- The field-update loop of `update_document`, followed by
`doc.updated_at = time.time()`. -/
def updateDocumentObj (d : DocumentObj) (updates : List (String × PyVal))
    (now : PyVal) : DocumentObj :=
  let d1 := updates.foldl
    (fun acc fv =>
      if (docGetattr acc fv.1).isSome && !(fv.1 = "id" || fv.1 = "created_at")
      then docSetattr acc fv.1 fv.2 else acc)
    d
  { d1 with updated_at := now }

/-- The slice of a library `update_document` traverses. -/
structure LibraryDocsObj where
  documents : List DocumentObj
  updated_at : PyVal
deriving Repr

/-- Model of `ThreadSafeDatabase.update_document`: update the first document whose
`id` compares `==` to the target id, write it back, stamp the library's
`updated_at`, and return the document; `None` when no document matches.
The conditional index rebuild (`"chunks" in updates`) replays the library's
chunks into the index and does not touch any entity field; it is omitted
here, where only entity fields are at stake. -/
def updateDocumentDB (lib : LibraryDocsObj) (docId : String)
    (updates : List (String × PyVal)) (now : PyVal) :
    Option (LibraryDocsObj × DocumentObj) :=
  match lib.documents.find? (fun d => pyEq d.id (.str docId)) with
  | Option.none => Option.none
  | some d0 =>
    let d1 := updateDocumentObj d0 updates now
    some
      ({ documents :=
          (updateFirst (fun d => pyEq d.id (.str docId)) (fun _ => d1)
            lib.documents).getD lib.documents
         updated_at := now }, d1)

/-! ### Observations on KD-trees -/

/-- All points stored in a tree, root first. -/
def treePoints : KDTree → List Vec
  | .nil => []
  | .node p _ l r => p :: (treePoints l ++ treePoints r)

/-- All `chunk_index` fields stored in a tree. -/
def treeIdxs : KDTree → List Nat
  | .nil => []
  | .node _ ci l r => ci :: (treeIdxs l ++ treeIdxs r)

/-- The per-node ordering invariant stated by the specification, weakened on
the left to `≤`: along the axis of each node, points in the left subtree are
`≤` the node's point and points in the right subtree are `≥` it. -/
def kdInvLe (dim : Nat) : KDTree → Nat → Bool
  | .nil, _ => true
  | .node p _ l r, depth =>
    (treePoints l).all (fun v => decide (v.getD (depth % dim) 0 ≤ p.getD (depth % dim) 0)) &&
    ((treePoints r).all (fun v => decide (p.getD (depth % dim) 0 ≤ v.getD (depth % dim) 0)) &&
    (kdInvLe dim l (depth + 1) && kdInvLe dim r (depth + 1)))

/-- The invariant exactly as the specification claims it: points in the left
subtree are *strictly less* than the node's point along the node's axis. -/
def kdInvStrict (dim : Nat) : KDTree → Nat → Bool
  | .nil, _ => true
  | .node p _ l r, depth =>
    (treePoints l).all (fun v => decide (v.getD (depth % dim) 0 < p.getD (depth % dim) 0)) &&
    ((treePoints r).all (fun v => decide (p.getD (depth % dim) 0 ≤ v.getD (depth % dim) 0)) &&
    (kdInvStrict dim l (depth + 1) && kdInvStrict dim r (depth + 1)))

/-! ### Concrete fixtures used by the witnesses and counterexamples -/

/-- Two chunks with identical embeddings, inserted in this order. -/
def chunkFirst : Chunk := ⟨"first", "a", [1, 0], []⟩

def chunkSecond : Chunk := ⟨"second", "b", [1, 0], []⟩

/-- A built linear index holding `chunkFirst` then `chunkSecond`. -/
def linearPairIndex : Index :=
  (((emptyIndex .linear 10 100).addChunks [chunkFirst, chunkSecond]).build []).1

def chunkOld : Chunk := ⟨"old", "o", [0, 1], []⟩

def chunkNew : Chunk := ⟨"new", "n", [1, 0], []⟩

/-- A linear index built over `chunkOld` only, with `chunkNew` added
afterwards and no rebuild. -/
def linearAfterAddIndex : Index :=
  ((((emptyIndex .linear 10 100).addChunks [chunkOld]).build []).1).addChunks [chunkNew]

/-- A KD-tree index built over two equal one-dimensional embeddings. -/
def kdDupIndex : Index :=
  (((emptyIndex .kdtree 10 100).addChunks
    [⟨"k1", "t", [1], []⟩, ⟨"k2", "t", [1], []⟩]).build []).1

def chunkUnit1 : Chunk := ⟨"x", "t", [1], []⟩

/-- A fresh KD-tree index holding only `chunkUnit1`, not yet built. -/
def kdSeedIndex : Index := (emptyIndex .kdtree 10 100).addChunks [chunkUnit1]

/-- A one-chunk library for the LSH rebuild experiment. -/
def lshDB : DB :=
  ⟨[("L", ⟨"L", "lib", "d", [], [⟨"D", "doc", [], [chunkUnit1], 0, 0⟩],
    some "lsh", 0, 0⟩)], []⟩

/-- The index produced by the first `build_index(L, "lsh", 1, 100)` on
`lshDB` when the RNG stream starts with `50`: the single hyperplane is
`[50]`, and the chunk lands in bucket `hash(50) % 100 = 50`. -/
def lshIdx1 : Index :=
  ⟨.lsh, [chunkUnit1], [[1]], true, .nil, 0, 1, 100, [[50]], [[(50, [0])]]⟩

/-- The index produced by the second, back-to-back `build_index` when the
next RNG draw is `1`: the hyperplane is `[1]` and the chunk lands in bucket
`hash(1) % 100 = 1`. -/
def lshIdx2 : Index :=
  ⟨.lsh, [chunkUnit1], [[1]], true, .nil, 0, 1, 100, [[1]], [[(1, [0])]]⟩

def lshDB1 : DB := ⟨lshDB.data, [("L", lshIdx1)]⟩

def lshDB2 : DB := ⟨lshDB.data, [("L", lshIdx2)]⟩

/-- The store after `build_index(L, "linear")` on `lshDB`. -/
def linIdxBuilt : Index :=
  ⟨.linear, [chunkUnit1], [[1]], true, .nil, 0, 10, 100, [], []⟩

def linDB1 : DB := ⟨lshDB.data, [("L", linIdxBuilt)]⟩

def chunkDim3 : Chunk := ⟨"c1", "a", [1, 0, 0], []⟩

/-- A library holding one document with one 3-dimensional chunk, its linear
index built. -/
def mismatchDB : DB :=
  ⟨[("L", ⟨"L", "lib", "d", [], [⟨"D", "doc", [], [chunkDim3], 0, 0⟩],
    Option.none, 0, 0⟩)],
   [("L", (((emptyIndex .linear 10 100).addChunks [chunkDim3]).build []).1)]⟩

/-- A 2-dimensional chunk, mismatching the dimension of `mismatchDB`. -/
def chunkDim2 : Chunk := ⟨"c2", "c", [1, 0], []⟩

/-- A valid 3-dimensional chunk for the `C1` witness. -/
def chunkDim3b : Chunk := ⟨"c3", "d", [0, 1, 0], []⟩

def goodChunk : Chunk := ⟨"g", "t", [1, 0], []⟩

/-- Two libraries: `good` with a built linear index, `bad` whose index was
never built, so that searching `bad` raises. -/
def crossDB : DB :=
  ⟨[("good", ⟨"good", "g", "d", [], [⟨"D", "doc", [], [goodChunk], 0, 0⟩],
      some "linear", 0, 0⟩),
    ("bad", ⟨"bad", "b", "d", [], [], Option.none, 0, 0⟩)],
   [("good", (((emptyIndex .linear 10 100).addChunks [goodChunk]).build []).1),
    ("bad", emptyIndex .linear 10 100)]⟩

/-- The query used by the cross-library witness. -/
def crossQuery : SearchQuery := ⟨[1, 0], 1, []⟩

/-- A concrete library object for the update witnesses. -/
def sampleLibObj : LibraryObj :=
  ⟨.str "lib-1", .str "name0", .str "desc0", .list [], .list [], .none, .none,
   .num 11, .num 12⟩

/-- A concrete document object for the update witnesses. -/
def sampleDocObj : DocumentObj :=
  ⟨.str "doc-1", .str "dname0", .list [], .list [], .num 21, .num 22⟩

/-- The entry `search_across_libraries` records for one library: the
library's own result, or the empty result when its search raised. -/
def perLibraryResult (re : ReOracle) (db : DB) (query : SearchQuery)
    (id : String) : SearchResult :=
  match searchSimilarChunks re db id query with
  | .ok r => r
  | .error _ => emptySearchResult

instance (axis : Nat) : IsTotal Vec (axisRel axis) :=
  ⟨fun _ _ => le_total _ _⟩

instance (axis : Nat) : IsTrans Vec (axisRel axis) :=
  ⟨fun _ _ _ => le_trans⟩

/-! ## Theorems -/

theorem length_topKIdx_le (sims : List ℚ) (k : Nat) :
    (topKIdx sims k).length ≤ k := by
  simp only [topKIdx, List.length_take]
  omega

theorem sorted_argsortAsc (sims : List ℚ) :
    List.Pairwise (fun i j => sims.getD i 0 ≤ sims.getD j 0) (argsortAsc sims) := by
  haveI : IsTotal Nat (fun i j => sims.getD i 0 ≤ sims.getD j 0) :=
    ⟨fun a b => le_total _ _⟩
  haveI : IsTrans Nat (fun i j => sims.getD i 0 ≤ sims.getD j 0) :=
    ⟨fun _ _ _ => le_trans⟩
  exact List.sorted_insertionSort _ _

theorem sorted_topKIdx (sims : List ℚ) (k : Nat) :
    List.Pairwise (fun i j => sims.getD j 0 ≤ sims.getD i 0) (topKIdx sims k) := by
  refine List.Pairwise.sublist (List.take_sublist _ _) ?_
  exact List.pairwise_reverse.mpr (sorted_argsortAsc sims)

theorem selectTopK_length_le (items : List Chunk) (sims : List ℚ) (k : Nat) :
    (selectTopK items sims k).1.length ≤ k := by
  simpa [selectTopK] using length_topKIdx_le sims k

theorem selectTopK_scores_sorted (items : List Chunk) (sims : List ℚ) (k : Nat) :
    List.Pairwise (fun a b => b ≤ a) (selectTopK items sims k).2 := by
  simp only [selectTopK, List.pairwise_map]
  exact sorted_topKIdx sims k

theorem argsortAsc_perm (sims : List ℚ) :
    (argsortAsc sims).Perm (List.range sims.length) :=
  List.perm_insertionSort _ _

theorem mem_topKIdx_lt (sims : List ℚ) (k i : Nat) (h : i ∈ topKIdx sims k) :
    i < sims.length := by
  have h1 : i ∈ (argsortAsc sims).reverse := (List.take_sublist _ _).mem h
  have h2 : i ∈ argsortAsc sims := List.mem_reverse.mp h1
  have h3 : i ∈ List.range sims.length := (argsortAsc_perm sims).mem_iff.mp h2
  exact List.mem_range.mp h3

/-- C7.  For every built index (linear, KD-tree, or LSH) and every query and
`k`, `search` returns at most `k` chunks, and the returned scores are
monotonically non-increasing. -/
theorem c7_search_topk_sorted (idx : Index) (q : Vec) (k : Nat)
    (res : List Chunk × List ℚ) (h : idx.search q k = .ok res) :
    res.1.length ≤ k ∧ List.Pairwise (fun a b => b ≤ a) res.2 := by
  cases hbuilt : idx.is_built with
  | false => simp [Index.search, hbuilt] at h
  | true =>
    cases hk : idx.kind <;>
      simp only [Index.search, hbuilt, hk, Bool.true_eq_false, if_false,
        Except.ok.injEq] at h
    · rw [← h]
      exact ⟨selectTopK_length_le _ _ _, selectTopK_scores_sorted _ _ _⟩
    · split at h <;> rw [← h]
      · exact ⟨by simp, by simp⟩
      · exact ⟨selectTopK_length_le _ _ _, selectTopK_scores_sorted _ _ _⟩
    · split at h <;> rw [← h]
      · exact ⟨by simp, by simp⟩
      · exact ⟨selectTopK_length_le _ _ _, selectTopK_scores_sorted _ _ _⟩

/-- Witness for C7 at a concrete built linear index. -/
theorem c7_witness :
    ([chunkSecond, chunkFirst].length ≤ 2 ∧
      List.Pairwise (fun a b => b ≤ a) ([1, 1] : List ℚ)) :=
  c7_search_topk_sorted linearPairIndex [1, 0] 2 ([chunkSecond, chunkFirst], [1, 1])
    (by norm_num [linearPairIndex, chunkFirst, chunkSecond, Index.search, Index.build,
      Index.addChunks, emptyIndex, selectTopK, topKIdx, argsortAsc, cosineSim, normQ,
      ratSqrt, natSqrtLin, dotList, List.insertionSort, List.orderedInsert,
      List.range, List.range.loop])

/-- C9.  A library id absent from the store's index map searches to the empty
result pair rather than raising. -/
theorem c9_search_missing_library_empty (db : DB) (libId : String) (q : Vec)
    (k : Nat) (h : db.indexes.lookup libId = Option.none) :
    db.search libId q k = .ok ([], []) := by
  unfold DB.search
  rw [h]

/-- Witness for C9 on a store with no indexes. -/
theorem c9_witness :
    DB.search ⟨[], []⟩ "missing" [1, 0] 5 = .ok ([], []) :=
  c9_search_missing_library_empty ⟨[], []⟩ "missing" [1, 0] 5 rfl

/-- Counterexample to C5 as stated: a `gt` filter comparing a string metadata
value against a number raises (`TypeError` in the source), it does not
evaluate to a non-match. -/
theorem c5_counterexample :
    chunkMatchesFilters (fun _ _ => .ok false) [("lang", .str "x")]
      [("lang", .withOp "gt" (.num 5))] = .error () := rfl

/-- C5 amended: for the operators `gt`, `gte`, `lt`, `lte`, a chunk value and
filter value that Python cannot order against each other make the filter
evaluation raise a `TypeError`, which propagates; the chunk is not silently
treated as a non-match. -/
theorem c5_non_orderable_comparison_raises (re : ReOracle) (cv fv : PyVal)
    (op : String)
    (hop : op = "gt" ∨ op = "gte" ∨ op = "lt" ∨ op = "lte")
    (hcmp : pyCompare cv fv = .error ()) :
    evaluateFilterOperator re cv op fv = .error () := by
  rcases hop with h | h | h | h <;> subst h <;>
    simp [evaluateFilterOperator, hcmp, Bind.bind, Except.bind]

/-- Witness for C5 amended at a string/number pair under `lt`. -/
theorem c5_witness :
    evaluateFilterOperator (fun _ _ => .ok false) (.str "a") "lt" (.num 3) =
      .error () :=
  c5_non_orderable_comparison_raises (fun _ _ => .ok false) (.str "a") (.num 3)
    "lt" (Or.inr (Or.inr (Or.inl rfl))) rfl

/-- Counterexample to C3 as stated: two chunks with identical embeddings
(hence equal scores) come back in *reverse* insertion order — the
later-inserted `chunkSecond` is returned first. -/
theorem c3_counterexample :
    linearPairIndex.search [1, 0] 2 = .ok ([chunkSecond, chunkFirst], [1, 1]) ∧
      chunkFirst ≠ chunkSecond := by
  constructor
  · norm_num [linearPairIndex, chunkFirst, chunkSecond, Index.search, Index.build,
      Index.addChunks, emptyIndex, selectTopK, topKIdx, argsortAsc, cosineSim,
      normQ, ratSqrt, natSqrtLin, dotList, List.insertionSort, List.orderedInsert,
      List.range, List.range.loop]
  · simp [chunkFirst, chunkSecond]

theorem pair_sublist_of_get :
    ∀ (l : List α) (p1 p2 : Nat) (h12 : p1 < p2) (h2 : p2 < l.length),
    List.Sublist [l.get ⟨p1, by omega⟩, l.get ⟨p2, h2⟩] l := by
  intro l
  induction l with
  | nil => intro p1 p2 h12 h2; simp at h2
  | cons x xs ih =>
    intro p1 p2 h12 h2
    match p1, p2, h12, h2 with
    | 0, q + 1, h12, h2 =>
      exact List.cons_sublist_cons.mpr
        (List.singleton_sublist.mpr (xs.get_mem q (by simpa using h2)))
    | m + 1, q + 1, h12, h2 =>
      exact (ih m q (by omega) (by simpa using h2)).cons x

theorem pair_sublist_range (i j n : Nat) (hij : i < j) (hj : j < n) :
    List.Sublist [i, j] (List.range n) := by
  have h := pair_sublist_of_get (List.range n) i j hij (by simpa using hj)
  simpa [List.get_eq_getElem, List.getElem_range] using h

/-- Stability of the modelled `np.argsort`: an earlier index whose score is
`≤` a later index's score stays before it. -/
theorem pair_sublist_argsortAsc (sims : List ℚ) (i j : Nat) (hij : i < j)
    (hj : j < sims.length) (hle : sims.getD i 0 ≤ sims.getD j 0) :
    List.Sublist [i, j] (argsortAsc sims) :=
  List.pair_sublist_insertionSort hle (pair_sublist_range i j _ hij hj)

theorem pair_sublist_decomp {l : List α} {a b : α} (h : List.Sublist [a, b] (l)) :
    ∃ A B, l = A ++ a :: B ∧ b ∈ B := by
  induction l with
  | nil => cases h
  | cons x xs ih =>
    cases h with
    | cons _ h2 =>
      obtain ⟨A, B, hAB, hb⟩ := ih h2
      exact ⟨x :: A, B, by simp [hAB], hb⟩
    | cons₂ _ h2 =>
      exact ⟨[], xs, rfl, List.singleton_sublist.mp h2⟩

theorem pair_sublist_take {l : List α} {a b : α} (k : Nat) (hnd : l.Nodup)
    (h : List.Sublist [a, b] l) (ha : a ∈ l.take k) (hb : b ∈ l.take k) :
    List.Sublist [a, b] (l.take k) := by
  obtain ⟨A, B, rfl, hbB⟩ := pair_sublist_decomp h
  rw [List.nodup_append] at hnd
  obtain ⟨-, hndR, hdisj⟩ := hnd
  have haA : a ∉ A := fun hmem => hdisj hmem (List.mem_cons_self a B)
  have hbA : b ∉ A := fun hmem => hdisj hmem (List.mem_cons_of_mem a hbB)
  have hba : b ≠ a := by
    intro hEq
    exact (List.nodup_cons.mp hndR).1 (hEq ▸ hbB)
  rw [List.take_append_eq_append_take] at ha hb ⊢
  rcases Nat.lt_or_ge A.length k with hAk | hAk
  · have hAfull : List.take k A = A := List.take_of_length_le (by omega)
    obtain ⟨m, hm⟩ : ∃ m, k - A.length = m + 1 := ⟨k - A.length - 1, by omega⟩
    rw [hm, hAfull] at ha hb ⊢
    simp only [List.take_succ_cons] at hb ⊢
    have hbtake : b ∈ List.take m B := by
      rcases List.mem_append.mp hb with hL | hR
      · exact absurd hL hbA
      · rcases List.mem_cons.mp hR with hEq | hIn
        · exact absurd hEq hba
        · exact hIn
    have h1 : List.Sublist [a, b] (a :: List.take m B) :=
      List.cons_sublist_cons.mpr (List.singleton_sublist.mpr hbtake)
    exact h1.trans (List.sublist_append_right _ _)
  · exfalso
    have hz : k - A.length = 0 := by omega
    rw [hz] at ha
    simp only [List.take_zero, List.append_nil] at ha
    exact haA ((List.take_sublist _ _).mem ha)

/-- C3 amended: on a built linear index, two positions with equal
cosine-similarity scores that both make it into the top-`k` selection are
returned in *reverse* insertion order — the later-inserted chunk first (the
stable ascending argsort is reversed).  Search remains deterministic. -/
theorem c3_equal_scores_reverse_insertion_order (idx : Index) (q : Vec)
    (k i j : Nat) (hkind : idx.kind = .linear) (hbuilt : idx.is_built = true)
    (hij : i < j) (hjlen : j < idx.embeddings.length)
    (heq : (idx.embeddings.map (fun e => cosineSim q e)).getD i 0 =
      (idx.embeddings.map (fun e => cosineSim q e)).getD j 0)
    (hi : i ∈ topKIdx (idx.embeddings.map (fun e => cosineSim q e)) k)
    (hj : j ∈ topKIdx (idx.embeddings.map (fun e => cosineSim q e)) k) :
    idx.search q k =
      .ok (selectTopK idx.chunks (idx.embeddings.map (fun e => cosineSim q e)) k) ∧
    List.Sublist [j, i] (topKIdx (idx.embeddings.map (fun e => cosineSim q e)) k) := by
  constructor
  · simp [Index.search, hkind, hbuilt]
  · have hjs : j < (idx.embeddings.map (fun e => cosineSim q e)).length := by
      simpa using hjlen
    have h1 : List.Sublist [i, j] (argsortAsc (idx.embeddings.map (fun e => cosineSim q e))) :=
      pair_sublist_argsortAsc _ i j hij hjs (le_of_eq heq)
    have h2 : List.Sublist [j, i] ((argsortAsc (idx.embeddings.map (fun e => cosineSim q e))).reverse) := by
      simpa using h1.reverse
    have hnd : (argsortAsc (idx.embeddings.map (fun e => cosineSim q e))).reverse.Nodup := by
      rw [List.nodup_reverse]
      exact ((argsortAsc_perm _).symm).nodup (List.nodup_range _)
    exact pair_sublist_take k hnd h2 hj hi

/-- Witness for C3 amended at the two-equal-chunk fixture: positions `0` and
`1` tie, and the selection keeps `1` (the later chunk) before `0`. -/
theorem c3_witness :
    linearPairIndex.search [1, 0] 2 =
      .ok (selectTopK linearPairIndex.chunks
        (linearPairIndex.embeddings.map (fun e => cosineSim [1, 0] e)) 2) ∧
    List.Sublist [1, 0] (topKIdx
      (linearPairIndex.embeddings.map (fun e => cosineSim [1, 0] e)) 2) :=
  c3_equal_scores_reverse_insertion_order linearPairIndex [1, 0] 2 0 1 rfl rfl
    (by omega)
    (by simp [linearPairIndex, Index.build, Index.addChunks, emptyIndex,
      chunkFirst, chunkSecond])
    (by simp [linearPairIndex, Index.build, Index.addChunks, emptyIndex,
      chunkFirst, chunkSecond])
    (by norm_num [linearPairIndex, chunkFirst, chunkSecond, Index.build,
      Index.addChunks, emptyIndex, topKIdx, argsortAsc, cosineSim, normQ,
      ratSqrt, natSqrtLin, dotList, List.insertionSort, List.orderedInsert,
      List.range, List.range.loop])
    (by norm_num [linearPairIndex, chunkFirst, chunkSecond, Index.build,
      Index.addChunks, emptyIndex, topKIdx, argsortAsc, cosineSim, normQ,
      ratSqrt, natSqrtLin, dotList, List.insertionSort, List.orderedInsert,
      List.range, List.range.loop])

/-- Counterexample to C2 as stated: on a *linear* index, a chunk added after
`build` is immediately searchable (`LinearSearchIndex.search` scans the live
working set), and here it is even the top result. -/
theorem c2_counterexample :
    linearAfterAddIndex.search [1, 0] 1 = .ok ([chunkNew], [1]) ∧
      chunkNew ∉ [chunkOld] := by
  constructor
  · norm_num [linearAfterAddIndex, chunkOld, chunkNew, Index.search, Index.build,
      Index.addChunks, emptyIndex, selectTopK, topKIdx, argsortAsc, cosineSim,
      normQ, ratSqrt, natSqrtLin, dotList, List.insertionSort, List.orderedInsert,
      List.range, List.range.loop]
  · simp [chunkOld, chunkNew]

theorem findVecIdx_lt (e : Vec) :
    ∀ (l : List Vec) (i : Nat), findVecIdx l e = some i → i < l.length := by
  intro l
  induction l with
  | nil => intro i h; simp [findVecIdx] at h
  | cons v rest ih =>
    intro i h
    rw [findVecIdx] at h
    split at h
    · cases h
      simp
    · rcases Option.map_eq_some'.mp h with ⟨j, hj, rfl⟩
      have := ih j hj
      simp only [List.length_cons]
      omega

theorem findEmbeddingIndex_lt (all : List Vec) (e : Vec) (h : all ≠ []) :
    findEmbeddingIndex all e < all.length := by
  have hpos : 0 < all.length := List.length_pos.mpr h
  unfold findEmbeddingIndex
  cases hf : findVecIdx all e with
  | none => simpa using hpos
  | some i => simpa using findVecIdx_lt e all i hf

theorem buildTree_idx_lt (all : List Vec) (hall : all ≠ []) :
    ∀ (n : Nat) (embs : List Vec) (depth dim : Nat), embs.length ≤ n →
      ∀ ci ∈ treeIdxs (buildTree all embs depth dim), ci < all.length := by
  intro n
  induction n with
  | zero =>
    intro embs depth dim hn ci hci
    have : embs.length = 0 := by omega
    rw [buildTree] at hci
    simp only [this, if_pos] at hci
    simp [treeIdxs] at hci
  | succ m ih =>
    intro embs depth dim hn ci hci
    rw [buildTree] at hci
    split_ifs at hci with h0 h1
    · simp [treeIdxs] at hci
    · simp only [treeIdxs, List.mem_cons] at hci
      rcases hci with rfl | hci
      · exact findEmbeddingIndex_lt all _ hall
      · simp [treeIdxs] at hci
    · have hlensort :
        (sortByAxis (depth % dim) embs).length = embs.length := by
        simp [sortByAxis, List.length_insertionSort]
      simp only [treeIdxs, List.mem_cons, List.mem_append] at hci
      rcases hci with rfl | hci | hci
      · exact findEmbeddingIndex_lt all _ hall
      · refine ih _ (depth + 1) dim ?_ ci hci
        simp only [List.length_take, hlensort]
        omega
      · refine ih _ (depth + 1) dim ?_ ci hci
        simp only [List.length_drop, hlensort]
        omega

theorem searchRecursive_mem (q : Vec) :
    ∀ (t : KDTree) (depth dim : Nat) (pr : Vec × Nat),
      pr ∈ searchRecursive t q depth dim → pr.2 ∈ treeIdxs t := by
  intro t
  induction t with
  | nil => intro depth dim pr h; simp [searchRecursive] at h
  | node p ci l r ihl ihr =>
    intro depth dim pr h
    rw [searchRecursive] at h
    split_ifs at h with hside hthr
    · simp only [List.mem_cons, List.mem_append] at h
      rcases h with rfl | h | h
      · simp [treeIdxs]
      · simp [treeIdxs, ihl _ _ _ h]
      · simp [treeIdxs, ihr _ _ _ h]
    · simp only [List.append_nil, List.mem_cons] at h
      rcases h with rfl | h
      · simp [treeIdxs]
      · simp [treeIdxs, ihl _ _ _ h]
    · simp only [List.mem_cons, List.mem_append] at h
      rcases h with rfl | h | h
      · simp [treeIdxs]
      · simp [treeIdxs, ihr _ _ _ h]
      · simp [treeIdxs, ihl _ _ _ h]
    · simp only [List.append_nil, List.mem_cons] at h
      rcases h with rfl | h
      · simp [treeIdxs]
      · simp [treeIdxs, ihr _ _ _ h]

theorem tableInsert_mem :
    ∀ (t : List (Int × List Nat)) (h : Int) (i : Nat) (hv : Int)
      (lst : List Nat), (hv, lst) ∈ tableInsert t h i → ∀ x ∈ lst,
      (∃ lst0, (hv, lst0) ∈ t ∧ x ∈ lst0) ∨ x = i := by
  intro t
  induction t with
  | nil =>
    intro h i hv lst hmem x hx
    simp only [tableInsert, List.mem_singleton, Prod.mk.injEq] at hmem
    rcases hmem with ⟨rfl, rfl⟩
    simp at hx
    right
    exact hx
  | cons p rest ih =>
    intro h i hv lst hmem x hx
    rw [tableInsert] at hmem
    split_ifs at hmem with heq
    · simp only [List.mem_cons, Prod.mk.injEq] at hmem
      rcases hmem with ⟨rfl, rfl⟩ | hmem
      · rcases List.mem_append.mp hx with hL | hR
        · exact Or.inl ⟨p.2, by simp, hL⟩
        · right; simpa using hR
      · exact Or.inl ⟨lst, List.mem_cons_of_mem _ hmem, hx⟩
    · simp only [List.mem_cons] at hmem
      rcases hmem with heq2 | hmem
      · rw [Prod.ext_iff] at heq2
        obtain ⟨rfl, rfl⟩ := heq2
        exact Or.inl ⟨p.2, by simp, hx⟩
      · rcases ih h i hv lst hmem x hx with ⟨lst0, hl0, hx0⟩ | hxi
        · exact Or.inl ⟨lst0, List.mem_cons_of_mem _ hl0, hx0⟩
        · exact Or.inr hxi

theorem buildTableGo_bound (plane : Vec) (buckets : Nat) :
    ∀ (embs : List Vec) (start : Nat) (acc : List (Int × List Nat)) (bound : Nat),
      start + embs.length ≤ bound →
      (∀ hv lst, (hv, lst) ∈ acc → ∀ x ∈ lst, x < bound) →
      ∀ hv lst, (hv, lst) ∈ buildTableGo plane buckets embs start acc →
        ∀ x ∈ lst, x < bound := by
  intro embs
  induction embs with
  | nil =>
    intro start acc bound hb hacc hv lst hmem x hx
    exact hacc hv lst hmem x hx
  | cons e rest ih =>
    intro start acc bound hb hacc hv lst hmem x hx
    refine ih (start + 1) _ bound (by simpa [Nat.add_right_comm] using hb) ?_ hv lst hmem x hx
    intro hv1 lst1 hmem1 y hy
    rcases tableInsert_mem acc _ start hv1 lst1 hmem1 y hy with ⟨lst0, hl0, hy0⟩ | rfl
    · exact hacc hv1 lst0 hl0 y hy0
    · simp only [List.length_cons] at hb
      omega

theorem buildTable_bound (plane : Vec) (buckets : Nat) (embs : List Vec)
    (hv : Int) (lst : List Nat) (hmem : (hv, lst) ∈ buildTable plane buckets embs) :
    ∀ x ∈ lst, x < embs.length := by
  refine buildTableGo_bound plane buckets embs 0 [] embs.length (by omega) ?_ hv lst hmem
  intro hv1 lst1 h
  simp at h

theorem lookup_mem_int :
    ∀ (t : List (Int × List Nat)) (key : Int) (v : List Nat),
      t.lookup key = some v → (key, v) ∈ t := by
  intro t
  induction t with
  | nil => intro key v h; simp [List.lookup] at h
  | cons p rest ih =>
    intro key v h
    rw [List.lookup] at h
    split at h
    · cases h
      rename_i heq
      have : key = p.1 := by simpa using heq
      simp [this]
    · exact List.mem_cons_of_mem _ (ih key v h)

theorem dedupKeepFirst_subset :
    ∀ (n : Nat) (l : List Nat), l.length ≤ n → ∀ x ∈ dedupKeepFirst l, x ∈ l := by
  intro n
  induction n with
  | zero =>
    intro l hn x hx
    have : l = [] := List.length_eq_zero.mp (by omega)
    subst this
    simpa [dedupKeepFirst] using hx
  | succ m ih =>
    intro l hn x hx
    cases l with
    | nil => simpa [dedupKeepFirst] using hx
    | cons a rest =>
      rw [dedupKeepFirst] at hx
      rcases List.mem_cons.mp hx with rfl | hx
      · simp
      · have hsub := ih (rest.filter (fun y => decide (y ≠ a)))
          (le_trans (rest.length_filter_le _) (by simpa using hn)) x hx
        have : x ∈ rest := (List.mem_filter.mp hsub).1
        exact List.mem_cons_of_mem _ this

theorem lshCandidateIdx_bound (idx : Index) (q : Vec) (n : Nat)
    (htab : ∀ t ∈ idx.hash_tables, ∀ hv lst, (hv, lst) ∈ t →
      ∀ x ∈ lst, x < n) :
    ∀ i ∈ lshCandidateIdx idx q, i < n := by
  intro i hi
  have h1 : i ∈ ((idx.random_planes.zip idx.hash_tables).map
      (fun pt => (pt.2.lookup (hashVector q pt.1 idx.num_buckets)).getD [])).flatten :=
    dedupKeepFirst_subset _ _ (le_refl _) i hi
  rw [List.mem_flatten] at h1
  obtain ⟨bucket, hbucket, hib⟩ := h1
  rw [List.mem_map] at hbucket
  obtain ⟨pt, hpt, rfl⟩ := hbucket
  have hptt : pt.2 ∈ idx.hash_tables := (List.of_mem_zip hpt).2
  cases hlk : pt.2.lookup (hashVector q pt.1 idx.num_buckets) with
  | none => rw [hlk] at hib; simp at hib
  | some lst =>
    rw [hlk] at hib
    simp only [Option.getD_some] at hib
    exact htab pt.2 hptt _ lst (lookup_mem_int _ _ _ hlk) i hib

theorem selectTopK_results_mem (items : List Chunk) (sims : List ℚ) (k : Nat)
    (hlen : sims.length = items.length) :
    ∀ c ∈ (selectTopK items sims k).1, ∃ i < sims.length, c = items.getD i default := by
  intro c hc
  simp only [selectTopK, List.mem_map] at hc
  obtain ⟨i, hi, rfl⟩ := hc
  exact ⟨i, mem_topKIdx_lt sims k i hi, rfl⟩


theorem mem_of_getD_append (l l2 : List Chunk) (i : Nat) (h : i < l.length) :
    (l ++ l2).getD i default ∈ l := by
  have hlt : i < (l ++ l2).length := by
    simp only [List.length_append]
    omega
  rw [List.getD_eq_getElem _ _ hlt, List.getElem_append_left h]
  exact List.getElem_mem h

/-- Results of a KD-tree search reference only indices stored in the tree. -/
theorem kd_search_results_mem (jdx : Index) (q : Vec) (k : Nat)
    (res : List Chunk × List ℚ) (n : Nat)
    (hk : jdx.kind = .kdtree) (hb : jdx.is_built = true)
    (htree : ∀ ci ∈ treeIdxs jdx.tree, ci < n)
    (hsearch : jdx.search q k = .ok res) :
    ∀ c ∈ res.1, ∃ i < n, c = jdx.chunks.getD i default := by
  simp only [Index.search, hk, hb, Bool.true_eq_false, if_false,
    Except.ok.injEq] at hsearch
  split at hsearch
  · rw [← hsearch]
    simp
  · rw [← hsearch]
    intro c hc
    obtain ⟨i, hilt, rfl⟩ := selectTopK_results_mem _ _ k (by simp) c hc
    simp only [List.length_map] at hilt
    set cands := searchRecursive jdx.tree q 0 jdx.dimension with hcands
    have hgd :
        (cands.map (fun pr => jdx.chunks.getD pr.2 default)).getD i default =
          jdx.chunks.getD (cands.get ⟨i, hilt⟩).2 default := by
      rw [List.getD_eq_getElem _ _ (by simpa using hilt)]
      simp [List.get_eq_getElem]
    rw [hgd]
    refine ⟨(cands.get ⟨i, hilt⟩).2, ?_, rfl⟩
    exact htree _ (searchRecursive_mem q jdx.tree 0 jdx.dimension _
      (cands.get_mem i hilt))

/-- Results of an LSH search reference only indices stored in the hash
tables. -/
theorem lsh_search_results_mem (jdx : Index) (q : Vec) (k : Nat)
    (res : List Chunk × List ℚ) (n : Nat)
    (hk : jdx.kind = .lsh) (hb : jdx.is_built = true)
    (htab : ∀ t ∈ jdx.hash_tables, ∀ hv lst, (hv, lst) ∈ t → ∀ x ∈ lst, x < n)
    (hsearch : jdx.search q k = .ok res) :
    ∀ c ∈ res.1, ∃ i < n, c = jdx.chunks.getD i default := by
  simp only [Index.search, hk, hb, Bool.true_eq_false, if_false,
    Except.ok.injEq] at hsearch
  split at hsearch
  · rw [← hsearch]
    simp
  · rw [← hsearch]
    intro c hc
    obtain ⟨i, hilt, rfl⟩ := selectTopK_results_mem _ _ k (by simp) c hc
    simp only [List.length_map] at hilt
    set cands := lshCandidateIdx jdx q with hcands
    have hgd :
        (cands.map (fun j => jdx.chunks.getD j default)).getD i default =
          jdx.chunks.getD (cands.get ⟨i, hilt⟩) default := by
      rw [List.getD_eq_getElem _ _ (by simpa using hilt)]
      simp [List.get_eq_getElem]
    rw [hgd]
    refine ⟨cands.get ⟨i, hilt⟩, ?_, rfl⟩
    exact lshCandidateIdx_bound jdx q n htab _ (cands.get_mem i hilt)

theorem build_kind (idx : Index) (rng : List ℚ) :
    ((idx.build rng).1).kind = idx.kind := by
  cases hk : idx.kind <;> simp [Index.build, hk] <;> split_ifs <;> rfl

theorem build_is_built (idx : Index) (rng : List ℚ) :
    ((idx.build rng).1).is_built = true := by
  cases hk : idx.kind <;> simp [Index.build, hk] <;> split_ifs <;> rfl

theorem build_chunks (idx : Index) (rng : List ℚ) :
    ((idx.build rng).1).chunks = idx.chunks := by
  cases hk : idx.kind <;> simp [Index.build, hk] <;> split_ifs <;> rfl

theorem build_tree_of_kdtree (idx : Index) (rng : List ℚ)
    (hk : idx.kind = .kdtree) :
    ((idx.build rng).1).tree =
      (if idx.embeddings = [] then idx.tree
       else buildTree idx.embeddings idx.embeddings 0
         (idx.embeddings.getD 0 []).length) := by
  simp only [Index.build, hk]
  split_ifs <;> rfl

theorem build_tables_of_lsh (idx : Index) (rng : List ℚ)
    (hk : idx.kind = .lsh) :
    ((idx.build rng).1).hash_tables =
      (if idx.embeddings = [] then idx.hash_tables
       else (drawPlanes idx.num_hashes (idx.embeddings.getD 0 []).length rng).1.map
         (fun p => buildTable p idx.num_buckets idx.embeddings)) := by
  simp only [Index.build, hk]
  split_ifs <;> rfl

/-- C2 amended: on a freshly constructed KD-tree or LSH index (tree and hash
tables in their initial state), `add_chunks` after `build` does not make the
added chunks searchable — every chunk a subsequent search returns was already
in the working set at build time.  For the *linear* index the claim as stated
fails: `LinearSearchIndex.search` scans the live working set, so added chunks
are immediately searchable (see the counterexample). -/
theorem c2_kdtree_lsh_added_not_searchable (idx : Index) (rng : List ℚ)
    (newCs : List Chunk) (q : Vec) (k : Nat) (res : List Chunk × List ℚ)
    (hkind : idx.kind = .kdtree ∨ idx.kind = .lsh)
    (hlen : idx.chunks.length = idx.embeddings.length)
    (htree : idx.tree = .nil) (htab : idx.hash_tables = [])
    (hsearch : (((idx.build rng).1).addChunks newCs).search q k = .ok res) :
    ∀ c ∈ res.1, c ∈ idx.chunks := by
  have hchunks : (((idx.build rng).1).addChunks newCs).chunks =
      idx.chunks ++ newCs := by
    simp [Index.addChunks, build_chunks]
  rcases hkind with hk | hk
  · have hres := kd_search_results_mem (((idx.build rng).1).addChunks newCs) q k
      res idx.chunks.length
      (by simpa [Index.addChunks] using (build_kind idx rng).trans hk)
      (by simpa [Index.addChunks] using build_is_built idx rng)
      (by
        have ht : (((idx.build rng).1).addChunks newCs).tree =
            ((idx.build rng).1).tree := rfl
        rw [ht, build_tree_of_kdtree idx rng hk]
        split_ifs with hemb
        · rw [htree]
          intro ci hci
          simp [treeIdxs] at hci
        · intro ci hci
          rw [hlen]
          exact buildTree_idx_lt idx.embeddings hemb idx.embeddings.length
            idx.embeddings 0 _ (le_refl _) ci hci)
      hsearch
    intro c hc
    obtain ⟨i, hi, rfl⟩ := hres c hc
    rw [hchunks]
    exact mem_of_getD_append _ _ _ hi
  · have hres := lsh_search_results_mem (((idx.build rng).1).addChunks newCs) q k
      res idx.chunks.length
      (by simpa [Index.addChunks] using (build_kind idx rng).trans hk)
      (by simpa [Index.addChunks] using build_is_built idx rng)
      (by
        have ht : (((idx.build rng).1).addChunks newCs).hash_tables =
            ((idx.build rng).1).hash_tables := rfl
        rw [ht, build_tables_of_lsh idx rng hk]
        split_ifs with hemb
        · rw [htab]
          intro t htmem
          simp at htmem
        · intro t htmem hv lst hl x hx
          rw [List.mem_map] at htmem
          obtain ⟨p, hp, rfl⟩ := htmem
          rw [hlen]
          exact buildTable_bound p idx.num_buckets idx.embeddings hv lst hl x hx)
      hsearch
    intro c hc
    obtain ⟨i, hi, rfl⟩ := hres c hc
    rw [hchunks]
    exact mem_of_getD_append _ _ _ hi

set_option maxRecDepth 4000 in
/-- Witness for C2 amended: on the KD-tree fixture, the search run after
`add_chunks` returns only the chunk present at build time. -/
theorem c2_witness : chunkUnit1 ∈ kdSeedIndex.chunks :=
  c2_kdtree_lsh_added_not_searchable kdSeedIndex [] [chunkNew] [1] 2
    ([chunkUnit1], [1]) (Or.inl rfl)
    (by simp [kdSeedIndex, Index.addChunks, emptyIndex, chunkUnit1])
    rfl rfl
    (by
      have htree : buildTree [[1]] [[1]] 0 1 = .node [1] 0 .nil .nil := by
        rw [buildTree]
        norm_num [findEmbeddingIndex, findVecIdx]
      norm_num [kdSeedIndex, chunkUnit1, chunkNew, Index.search, Index.build,
        Index.addChunks, emptyIndex, htree, searchRecursive, selectTopK, topKIdx,
        argsortAsc, cosineSim, normQ, ratSqrt, natSqrtLin, dotList,
        List.insertionSort, List.orderedInsert, List.range, List.range.loop])
    chunkUnit1 (by simp [kdSeedIndex, Index.addChunks, emptyIndex])

theorem createIndex_linear (nh nb : Nat) :
    createIndex "linear" nh nb = .ok (emptyIndex .linear nh nb) := rfl

theorem createIndex_kdtree (nh nb : Nat) :
    createIndex "kdtree" nh nb = .ok (emptyIndex .kdtree nh nb) := rfl

theorem build_rng_of_linear (idx : Index) (rng : List ℚ)
    (hk : idx.kind = .linear) : (idx.build rng).2 = rng := by
  simp [Index.build, hk]

theorem build_rng_of_kdtree (idx : Index) (rng : List ℚ)
    (hk : idx.kind = .kdtree) : (idx.build rng).2 = rng := by
  simp only [Index.build, hk]
  split_ifs <;> rfl

theorem build_fst_of_linear (idx : Index) (rng rng2 : List ℚ)
    (hk : idx.kind = .linear) : (idx.build rng).1 = (idx.build rng2).1 := by
  simp [Index.build, hk]

theorem build_fst_of_kdtree (idx : Index) (rng rng2 : List ℚ)
    (hk : idx.kind = .kdtree) : (idx.build rng).1 = (idx.build rng2).1 := by
  simp only [Index.build, hk]
  split_ifs <;> rfl

theorem assocSet_assocSet (m : List (String × α)) (k : String) (v1 v2 : α) :
    assocSet (assocSet m k v1) k v2 = assocSet m k v2 := by
  induction m with
  | nil => simp [assocSet]
  | cons p rest ih =>
    by_cases hk : p.1 = k
    · simp [assocSet, hk]
    · simp only [assocSet, hk, if_false, if_neg hk]
      rw [ih]

/-- Counterexample to C4 as stated: two back-to-back `build_index("lsh")`
calls with identical parameters and no intervening mutation draw different
random hyperplanes from the process-global RNG, and the rebuilt index answers
the same query differently — the first build finds the chunk, the second
returns nothing. -/
theorem c4_counterexample :
    DB.buildIndex lshDB "L" "lsh" 1 100 [50, 1] = .ok (lshDB1, [1], true) ∧
    DB.search lshDB1 "L" [3] 1 = .ok ([chunkUnit1], [1]) ∧
    DB.buildIndex lshDB1 "L" "lsh" 1 100 [1] = .ok (lshDB2, [], true) ∧
    DB.search lshDB2 "L" [3] 1 = .ok ([], []) ∧
    ((Except.ok (([chunkUnit1], [1]) : List Chunk × List ℚ) :
      Except Unit (List Chunk × List ℚ)) ≠ .ok ([], [])) := by
  refine ⟨?_, ?_, ?_, ?_, ?_⟩
  · norm_num +decide [lshDB, lshDB1, lshIdx1, chunkUnit1, DB.buildIndex,
      createIndex, emptyIndex, Index.addChunks, Index.build, drawPlanes, randn,
      buildTable, buildTableGo, tableInsert, hashVector, pyHashQ, pyHashPrime,
      dotList, assocSet, Bind.bind, Except.bind, pure, Except.pure]
  · norm_num +decide [lshDB1, lshIdx1, chunkUnit1, DB.search, Index.search,
      lshCandidateIdx, dedupKeepFirst, hashVector, pyHashQ, pyHashPrime,
      List.lookup, selectTopK, topKIdx, argsortAsc, cosineSim, normQ, ratSqrt,
      natSqrtLin, dotList, List.insertionSort, List.orderedInsert, List.range,
      List.range.loop]
  · norm_num +decide [lshDB, lshDB1, lshDB2, lshIdx1, lshIdx2, chunkUnit1,
      DB.buildIndex, createIndex, emptyIndex, Index.addChunks, Index.build,
      drawPlanes, randn, buildTable, buildTableGo, tableInsert, hashVector,
      pyHashQ, pyHashPrime, dotList, assocSet, Bind.bind, Except.bind, pure,
      Except.pure]
  · norm_num +decide [lshDB2, lshIdx2, chunkUnit1, DB.search, Index.search,
      lshCandidateIdx, dedupKeepFirst, hashVector, pyHashQ, pyHashPrime,
      List.lookup, selectTopK, topKIdx, argsortAsc, cosineSim, normQ, ratSqrt,
      natSqrtLin, dotList, List.insertionSort, List.orderedInsert, List.range,
      List.range.loop, show ((3 : Int) == (1 : Int)) = false from rfl]
  · simp

theorem buildIndex_none (db : DB) (libId itype : String) (nh nb : Nat)
    (rng : List ℚ) (hlk : db.data.lookup libId = Option.none) :
    DB.buildIndex db libId itype nh nb rng = .ok (db, rng, false) := by
  unfold DB.buildIndex
  rw [hlk]

theorem buildIndex_some (db : DB) (libId itype : String) (nh nb : Nat)
    (rng : List ℚ) (lib : Library) (idx0 : Index)
    (hlk : db.data.lookup libId = some lib)
    (hci : createIndex itype nh nb = .ok idx0) :
    DB.buildIndex db libId itype nh nb rng =
      .ok (⟨db.data, assocSet db.indexes libId
          ((idx0.addChunks ((lib.documents.map (fun d => d.chunks)).flatten)).build rng).1⟩,
        ((idx0.addChunks ((lib.documents.map (fun d => d.chunks)).flatten)).build rng).2,
        true) := by
  unfold DB.buildIndex
  rw [hlk, hci]
  rfl

/-- C4 amended: `build_index` is idempotent for the deterministic index types
(`linear` and `kdtree`): a second back-to-back call with the same type and
parameters and no intervening mutation does not consume the RNG and
reproduces exactly the same store state, hence answers every query
identically.  For the LSH type the claim fails (see the counterexample):
each build draws fresh random hyperplanes from the process-global RNG. -/
theorem c4_build_index_idempotent_deterministic (db : DB) (libId : String)
    (itype : String) (nh nb : Nat) (rng rng2 : List ℚ) (db1 : DB)
    (rng1 : List ℚ) (b : Bool)
    (ht : itype = "linear" ∨ itype = "kdtree")
    (h1 : DB.buildIndex db libId itype nh nb rng = .ok (db1, rng1, b)) :
    rng1 = rng ∧ DB.buildIndex db1 libId itype nh nb rng2 = .ok (db1, rng2, b) := by
  have hci : createIndex itype nh nb =
      .ok (emptyIndex (if itype = "linear" then .linear else .kdtree) nh nb) := by
    rcases ht with h | h <;> subst h <;> simp [createIndex]
  have hkind0 : ∀ (cs : List Chunk),
      ((emptyIndex (if itype = "linear" then .linear else .kdtree) nh nb).addChunks
        cs).kind = (if itype = "linear" then IndexKind.linear else .kdtree) := by
    intro cs
    rfl
  have hbrng : ∀ (cs : List Chunk) (r : List ℚ),
      (((emptyIndex (if itype = "linear" then .linear else .kdtree) nh nb).addChunks
        cs).build r).2 = r := by
    intro cs r
    rcases ht with h | h <;> subst h
    · exact build_rng_of_linear _ _ (by simpa using hkind0 cs)
    · refine build_rng_of_kdtree _ _ ?_
      have := hkind0 cs
      simpa using this
  have hbfst : ∀ (cs : List Chunk) (r r2 : List ℚ),
      (((emptyIndex (if itype = "linear" then .linear else .kdtree) nh nb).addChunks
        cs).build r).1 =
      (((emptyIndex (if itype = "linear" then .linear else .kdtree) nh nb).addChunks
        cs).build r2).1 := by
    intro cs r r2
    rcases ht with h | h <;> subst h
    · exact build_fst_of_linear _ _ _ (by simpa using hkind0 cs)
    · refine build_fst_of_kdtree _ _ _ ?_
      have := hkind0 cs
      simpa using this
  cases hlk : db.data.lookup libId with
  | none =>
    rw [buildIndex_none db libId itype nh nb rng hlk] at h1
    simp only [Except.ok.injEq, Prod.mk.injEq] at h1
    obtain ⟨h1a, h1b, h1c⟩ := h1
    subst h1a
    subst h1b
    subst h1c
    exact ⟨rfl, buildIndex_none db libId itype nh nb rng2 hlk⟩
  | some lib =>
    rw [buildIndex_some db libId itype nh nb rng lib _ hlk hci] at h1
    simp only [Except.ok.injEq, Prod.mk.injEq] at h1
    obtain ⟨h1a, h1b, h1c⟩ := h1
    subst h1b
    subst h1c
    refine ⟨hbrng _ rng, ?_⟩
    have hlk1 : db1.data.lookup libId = some lib := by
      rw [← h1a]
      exact hlk
    rw [buildIndex_some db1 libId itype nh nb rng2 lib _ hlk1 hci]
    simp only [Except.ok.injEq, Prod.mk.injEq]
    refine ⟨?_, hbrng _ rng2, trivial⟩
    rw [← h1a]
    simp only [DB.mk.injEq]
    refine ⟨trivial, ?_⟩
    rw [assocSet_assocSet]
    rw [hbfst _ rng2 rng]

/-- Witness for C4 amended: rebuilding the linear index of `linDB1` in place
reproduces the same store state. -/
theorem c4_witness :
    ([] : List ℚ) = [] ∧
    DB.buildIndex linDB1 "L" "linear" 10 100 [] = .ok (linDB1, [], true) :=
  c4_build_index_idempotent_deterministic lshDB "L" "linear" 10 100 [] []
    linDB1 [] true (Or.inl rfl)
    (by norm_num +decide [lshDB, linDB1, linIdxBuilt, chunkUnit1, DB.buildIndex,
      createIndex, emptyIndex, Index.addChunks, Index.build, assocSet,
      Bind.bind, Except.bind, pure, Except.pure])

theorem lookup_assocSet_self (m : List (String × α)) (k : String) (v : α) :
    (assocSet m k v).lookup k = some v := by
  induction m with
  | nil => simp [assocSet, List.lookup]
  | cons p rest ih =>
    by_cases hk : p.1 = k
    · simp [assocSet, hk, List.lookup]
    · simp only [assocSet, hk, if_neg hk, List.lookup]
      have : (k == p.1) = false := by
        simp only [beq_eq_false_iff_ne, ne_eq]
        exact fun h => hk h.symm
      rw [this]
      exact ih

theorem updateFirst_of_find (p : α → Bool) (f : α → α)
    (hpf : ∀ a, p a = true → p (f a) = true) :
    ∀ (l : List α) (a : α), l.find? p = some a →
      ∃ l2, updateFirst p f l = some l2 ∧ l2.find? p = some (f a) := by
  intro l
  induction l with
  | nil => intro a h; simp at h
  | cons x xs ih =>
    intro a h
    by_cases hx : p x = true
    · rw [List.find?_cons_of_pos _ hx] at h
      injection h with h2
      subst h2
      refine ⟨f x :: xs, ?_, ?_⟩
      · simp [updateFirst, hx]
      · rw [List.find?_cons_of_pos _ (hpf x hx)]
    · have hx2 : p x = false := by
        cases hpx : p x
        · rfl
        · exact absurd hpx hx
      rw [List.find?_cons_of_neg _ (by simp [hx2])] at h
      obtain ⟨l2, hl2, hfind⟩ := ih a h
      refine ⟨x :: l2, ?_, ?_⟩
      · simp [updateFirst, hx2, hl2]
      · rw [List.find?_cons_of_neg _ (by simp [hx2])]
        exact hfind

/-- Counterexample to C1 as stated: adding a 2-dimensional chunk to a library
whose only existing chunk is 3-dimensional *succeeds* (the call returns
`True`, no validation error), and the document's chunk list now holds both
embeddings — the library state is changed, not preserved. -/
theorem c1_counterexample :
    (serviceAddChunksToDocument mismatchDB "L" "D" [chunkDim2] 5 []).toOption.map
        (fun t => (t.2.2, (t.1.getDocument "L" "D").map
          (fun d => d.chunks.map (fun c => c.embedding)))) =
      some (true, some [[1, 0, 0], [1, 0]]) ∧
    (mismatchDB.getDocument "L" "D").map
        (fun d => d.chunks.map (fun c => c.embedding)) = some [[1, 0, 0]] := by
  constructor
  · norm_num +decide [mismatchDB, chunkDim3, chunkDim2, serviceAddChunksToDocument,
      DB.getDocument, DB.addChunksToDocument, chunkValidationOk, pyStrip,
      isPySpace, updateFirst, assocSet, emptyIndex, Index.addChunks, Index.build,
      List.lookup, List.find?]
  · norm_num +decide [mismatchDB, chunkDim3, DB.getDocument, List.lookup,
      List.find?]

/-- C1 amended: the add-chunks operation performs *no* dimension check.
Whenever the addressed document exists and every added chunk passes the only
validations present (non-blank text, non-empty embedding), the call succeeds
with `True` — regardless of the embedding dimensions — and the new chunks are
appended to the document. -/
theorem c1_add_chunks_no_dimension_check (db : DB) (libId docId : String)
    (cs : List Chunk) (now : ℚ) (rng : List ℚ) (doc : Document)
    (hdoc : db.getDocument libId docId = some doc)
    (hcs : cs ≠ [])
    (hval : cs.all chunkValidationOk = true) :
    (serviceAddChunksToDocument db libId docId cs now rng).toOption.map
        (fun t => (t.2.2, t.1.getDocument libId docId)) =
      some (true, some { doc with chunks := doc.chunks ++ cs, updated_at := now }) := by
  obtain ⟨lib, hlk, hfind⟩ :
      ∃ lib, db.data.lookup libId = some lib ∧
        lib.documents.find? (fun d => decide (d.id = docId)) = some doc := by
    unfold DB.getDocument at hdoc
    cases hlk : db.data.lookup libId with
    | none => rw [hlk] at hdoc; cases hdoc
    | some lib => rw [hlk] at hdoc; exact ⟨lib, rfl, hdoc⟩
  have hempty : cs.isEmpty = false := by
    cases cs with
    | nil => exact absurd rfl hcs
    | cons a l => rfl
  obtain ⟨docs1, hupd, hfind1⟩ :=
    updateFirst_of_find (fun d => decide (d.id = docId))
      (fun d => { d with chunks := d.chunks ++ cs, updated_at := now })
      (fun a ha => ha) lib.documents doc hfind
  unfold serviceAddChunksToDocument
  rw [hdoc]
  simp only [hempty, Bool.false_eq_true, if_false, hval, if_true]
  unfold DB.addChunksToDocument
  simp only [hlk, hupd]
  cases hidx : db.indexes.lookup libId <;>
    simp [hidx, DB.getDocument, lookup_assocSet_self, hfind1, Except.toOption]

/-- Witness for C1 amended: adding a valid chunk appends it and returns
`True`. -/
theorem c1_witness :
    (serviceAddChunksToDocument mismatchDB "L" "D" [chunkDim3b] 7 []).toOption.map
        (fun t => (t.2.2, t.1.getDocument "L" "D")) =
      some (true, some { (⟨"D", "doc", [], [chunkDim3], 0, 0⟩ : Document) with
        chunks := [chunkDim3] ++ [chunkDim3b], updated_at := 7 }) :=
  c1_add_chunks_no_dimension_check mismatchDB "L" "D" [chunkDim3b] 7 []
    ⟨"D", "doc", [], [chunkDim3], 0, 0⟩
    (by norm_num +decide [mismatchDB, DB.getDocument, List.lookup, List.find?,
      chunkDim3])
    (by simp)
    (by norm_num +decide [chunkValidationOk, chunkDim3b, pyStrip, isPySpace])

theorem lookup_assocSet_ne (m : List (String × α)) (k k' : String) (v : α)
    (h : k' ≠ k) : (assocSet m k v).lookup k' = m.lookup k' := by
  induction m with
  | nil =>
    simp only [assocSet, List.lookup]
    have : (k' == k) = false := by simpa using h
    rw [this]
  | cons p rest ih =>
    by_cases hk : p.1 = k
    · simp only [assocSet, hk, if_pos]
      simp only [List.lookup]
      have : (k' == k) = false := by simpa using h
      rw [hk, this]
    · simp only [assocSet, if_neg hk, List.lookup]
      cases hpk : (k' == p.1) with
      | true => rfl
      | false => exact ih

theorem foldl_assocSet_lookup_not_mem (g : String → α) :
    ∀ (ids : List String) (acc : List (String × α)) (id : String),
      id ∉ ids →
      ((ids.foldl (fun acc i => assocSet acc i (g i)) acc).lookup id) =
        acc.lookup id := by
  intro ids
  induction ids with
  | nil => intro acc id _; rfl
  | cons a t ih =>
    intro acc id hid
    have hne : id ≠ a := fun h => hid (h ▸ List.mem_cons_self a t)
    have hnt : id ∉ t := fun h => hid (List.mem_cons_of_mem a h)
    simp only [List.foldl_cons]
    rw [ih _ id hnt, lookup_assocSet_ne _ _ _ _ hne]

theorem foldl_assocSet_lookup_mem (g : String → α) :
    ∀ (ids : List String) (acc : List (String × α)) (id : String),
      id ∈ ids →
      ((ids.foldl (fun acc i => assocSet acc i (g i)) acc).lookup id) =
        some (g id) := by
  intro ids
  induction ids with
  | nil => intro acc id h; cases h
  | cons a t ih =>
    intro acc id hid
    simp only [List.foldl_cons]
    by_cases ht : id ∈ t
    · exact ih _ id ht
    · have hia : id = a := by
        rcases List.mem_cons.mp hid with h | h
        · exact h
        · exact absurd h ht
      subst hia
      rw [foldl_assocSet_lookup_not_mem g t _ id ht, lookup_assocSet_self]

/-- C6.  Cross-library search swallows per-library errors: every requested
library id gets an entry in the returned mapping — its own result computed
independently of the other libraries — and a library whose search raises is
recorded as the empty result instead of propagating the exception (the
function is total by construction). -/
theorem c6_cross_library_errors_swallowed (re : ReOracle) (db : DB)
    (query : SearchQuery) (ids : List String) (id : String) (hid : id ∈ ids) :
    (searchAcrossLibraries re db query (some ids)).lookup id =
      some (perLibraryResult re db query id) ∧
    (∀ e, searchSimilarChunks re db id query = .error e →
      (searchAcrossLibraries re db query (some ids)).lookup id =
        some emptySearchResult) := by
  have hmain :
      (searchAcrossLibraries re db query (some ids)).lookup id =
        some (perLibraryResult re db query id) := by
    cases ids with
    | nil => cases hid
    | cons a t =>
      show ((a :: t).foldl
        (fun acc i => assocSet acc i (perLibraryResult re db query i)) []).lookup id =
          some (perLibraryResult re db query id)
      exact foldl_assocSet_lookup_mem _ (a :: t) [] id hid
  refine ⟨hmain, ?_⟩
  intro e he
  rw [hmain]
  simp [perLibraryResult, he]

/-- Witness for C6: in `crossDB` the `bad` library's index was never built,
so its search raises; the cross-library result still records `bad`, with the
empty result. -/
theorem c6_witness :
    (searchAcrossLibraries (fun _ _ => .ok false) crossDB crossQuery
      (some ["good", "bad"])).lookup "bad" = some emptySearchResult :=
  (c6_cross_library_errors_swallowed (fun _ _ => .ok false) crossDB crossQuery
    ["good", "bad"] "bad" (by simp)).2 ()
    (by norm_num +decide [crossDB, crossQuery, goodChunk, searchSimilarChunks,
      DB.search, Index.search, emptyIndex, Index.addChunks, Index.build,
      List.lookup, Bind.bind, Except.bind,
      show (("bad" == "good") : Bool) = false by decide])

/-- Counterexample to C8 as stated: building a KD-tree over two *equal*
one-dimensional points puts the duplicate into the left subtree, where it is
equal to — not strictly less than — the splitting element. -/
theorem c8_counterexample :
    kdDupIndex.tree = .node [1] 0 (.node [1] 0 .nil .nil) .nil ∧
    kdInvStrict 1 kdDupIndex.tree 0 = false := by
  have hsort : sortByAxis 0 [[1], [1]] = [[1], [1]] := by
    norm_num [sortByAxis, List.insertionSort, List.orderedInsert, axisRel]
  have h1 : buildTree [[1], [1]] [[1]] 1 1 = .node [1] 0 .nil .nil := by
    rw [buildTree]
    norm_num [findEmbeddingIndex, findVecIdx]
  have h2 : buildTree [[1], [1]] ([] : List Vec) 1 1 = .nil := by
    rw [buildTree]
    norm_num
  have htree : buildTree [[1], [1]] [[1], [1]] 0 1 =
      .node [1] 0 (.node [1] 0 .nil .nil) .nil := by
    rw [buildTree]
    norm_num [hsort, h1, h2, findEmbeddingIndex, findVecIdx]
  have hidx : kdDupIndex.tree = .node [1] 0 (.node [1] 0 .nil .nil) .nil := by
    norm_num +decide [kdDupIndex, Index.build, Index.addChunks, emptyIndex, htree]
  refine ⟨hidx, ?_⟩
  rw [hidx]
  decide

theorem treePoints_buildTree_sub (all : List Vec) :
    ∀ (n : Nat) (embs : List Vec) (depth dim : Nat), embs.length ≤ n →
      ∀ v ∈ treePoints (buildTree all embs depth dim), v ∈ embs := by
  intro n
  induction n with
  | zero =>
    intro embs depth dim hn v hv
    have h0 : embs.length = 0 := by omega
    rw [buildTree] at hv
    simp only [h0, if_pos] at hv
    simp [treePoints] at hv
  | succ m ih =>
    intro embs depth dim hn v hv
    rw [buildTree] at hv
    split_ifs at hv with h0 h1
    · simp [treePoints] at hv
    · simp only [treePoints, List.append_nil, List.mem_singleton] at hv
      subst hv
      cases embs with
      | nil => simp at h0
      | cons e rest => simp
    · have hperm : (sortByAxis (depth % dim) embs).Perm embs :=
        List.perm_insertionSort _ _
      have hlensort : (sortByAxis (depth % dim) embs).length = embs.length :=
        hperm.length_eq
      have hm : embs.length / 2 < (sortByAxis (depth % dim) embs).length := by
        rw [hlensort]; omega
      simp only [treePoints, List.mem_cons, List.mem_append] at hv
      rcases hv with rfl | hv | hv
      · refine hperm.mem_iff.mp ?_
        rw [List.getD_eq_getElem _ _ hm]
        exact List.getElem_mem hm
      · have hvin := ih _ (depth + 1) dim
          (by simp only [List.length_take, hlensort]; omega) v hv
        exact hperm.mem_iff.mp ((List.take_sublist _ _).mem hvin)
      · have hvin := ih _ (depth + 1) dim
          (by simp only [List.length_drop, hlensort]; omega) v hv
        exact hperm.mem_iff.mp ((List.drop_sublist _ _).mem hvin)

theorem sorted_split_le (axis : Nat) (embs : List Vec) (m : Nat)
    (hm : m < (sortByAxis axis embs).length) :
    (∀ v ∈ (sortByAxis axis embs).take m,
      v.getD axis 0 ≤ ((sortByAxis axis embs).getD m []).getD axis 0) ∧
    (∀ v ∈ (sortByAxis axis embs).drop (m + 1),
      ((sortByAxis axis embs).getD m []).getD axis 0 ≤ v.getD axis 0) := by
  have hs : List.Sorted (axisRel axis) (sortByAxis axis embs) :=
    List.sorted_insertionSort _ _
  have hsplit : sortByAxis axis embs =
      (sortByAxis axis embs).take m ++
        ((sortByAxis axis embs)[m] :: (sortByAxis axis embs).drop (m + 1)) := by
    rw [← List.drop_eq_getElem_cons hm, List.take_append_drop]
  rw [hsplit] at hs
  rw [List.Sorted, List.pairwise_append] at hs
  obtain ⟨-, hcons, hcross⟩ := hs
  have hgd : (sortByAxis axis embs).getD m [] = (sortByAxis axis embs)[m] :=
    List.getD_eq_getElem _ _ hm
  constructor
  · intro v hv
    have := hcross v hv _ (List.mem_cons_self _ _)
    rw [hgd]
    exact this
  · intro v hv
    rw [List.pairwise_cons] at hcons
    have := hcons.1 v hv
    rw [hgd]
    exact this

theorem kdInvLe_buildTree (all : List Vec) :
    ∀ (n : Nat) (embs : List Vec) (depth dim : Nat), embs.length ≤ n →
      kdInvLe dim (buildTree all embs depth dim) depth = true := by
  intro n
  induction n with
  | zero =>
    intro embs depth dim hn
    have h0 : embs.length = 0 := by omega
    rw [buildTree]
    simp [h0, kdInvLe]
  | succ m ih =>
    intro embs depth dim hn
    rw [buildTree]
    split_ifs with h0 h1
    · simp [kdInvLe]
    · simp [kdInvLe, treePoints]
    · have hlensort : (sortByAxis (depth % dim) embs).length = embs.length :=
        (List.perm_insertionSort _ _).length_eq
      have hm2 : embs.length / 2 < (sortByAxis (depth % dim) embs).length := by
        rw [hlensort]; omega
      obtain ⟨hleft, hright⟩ :=
        sorted_split_le (depth % dim) embs (embs.length / 2) hm2
      simp only [kdInvLe, Bool.and_eq_true, List.all_eq_true]
      refine ⟨?_, ?_, ?_, ?_⟩
      · intro v hv
        have hv2 := treePoints_buildTree_sub all m _ (depth + 1) dim
          (by simp only [List.length_take, hlensort]; omega) v hv
        exact decide_eq_true (hleft v hv2)
      · intro v hv
        have hv2 := treePoints_buildTree_sub all m _ (depth + 1) dim
          (by simp only [List.length_drop, hlensort]; omega) v hv
        exact decide_eq_true (hright v hv2)
      · exact ih _ (depth + 1) dim
          (by simp only [List.length_take, hlensort]; omega)
      · exact ih _ (depth + 1) dim
          (by simp only [List.length_drop, hlensort]; omega)

/-- C8 amended: in every KD-tree built by `KDTreeIndex.build`, the splitting
element at each node is the `len // 2`-th element of the axis-sorted
remaining points (the upper median), points in the left subtree are `≤` the
splitting element along the node's axis — *not* strictly less: duplicates of
the median land in the left subtree — and points in the right subtree are
`≥` it. -/
theorem c8_kdtree_invariant :
    (∀ (all embs : List Vec) (depth dim : Nat),
      kdInvLe dim (buildTree all embs depth dim) depth = true) ∧
    (∀ (all embs : List Vec) (depth dim : Nat), 2 ≤ embs.length →
      buildTree all embs depth dim = .node
        ((sortByAxis (depth % dim) embs).getD (embs.length / 2) [])
        (findEmbeddingIndex all
          ((sortByAxis (depth % dim) embs).getD (embs.length / 2) []))
        (buildTree all ((sortByAxis (depth % dim) embs).take (embs.length / 2))
          (depth + 1) dim)
        (buildTree all ((sortByAxis (depth % dim) embs).drop (embs.length / 2 + 1))
          (depth + 1) dim)) := by
  constructor
  · intro all embs depth dim
    exact kdInvLe_buildTree all embs.length embs depth dim (le_refl _)
  · intro all embs depth dim h2
    rw [buildTree]
    rw [if_neg (by omega), if_neg (by omega)]

/-- Witness for C8 amended at the duplicate-point tree: the `≤` invariant
holds and the root is the upper median of the sorted points. -/
theorem c8_witness :
    kdInvLe 1 (buildTree [[1], [1]] [[1], [1]] 0 1) 0 = true ∧
    buildTree [[1], [1]] [[1], [1]] 0 1 = .node
      ((sortByAxis (0 % 1) [[1], [1]]).getD (([[1], [1]] : List Vec).length / 2) [])
      (findEmbeddingIndex [[1], [1]]
        ((sortByAxis (0 % 1) [[1], [1]]).getD (([[1], [1]] : List Vec).length / 2) []))
      (buildTree [[1], [1]]
        ((sortByAxis (0 % 1) [[1], [1]]).take (([[1], [1]] : List Vec).length / 2)) 1 1)
      (buildTree [[1], [1]]
        ((sortByAxis (0 % 1) [[1], [1]]).drop (([[1], [1]] : List Vec).length / 2 + 1)) 1 1) :=
  ⟨c8_kdtree_invariant.1 [[1], [1]] [[1], [1]] 0 1,
   c8_kdtree_invariant.2 [[1], [1]] [[1], [1]] 0 1 (by simp)⟩

theorem libSetattr_id (l : LibraryObj) (f : String) (v : PyVal)
    (h : f ≠ "id") : (libSetattr l f v).id = l.id := by
  unfold libSetattr
  split_ifs <;> simp_all

theorem libSetattr_created_at (l : LibraryObj) (f : String) (v : PyVal)
    (h : f ≠ "created_at") : (libSetattr l f v).created_at = l.created_at := by
  unfold libSetattr
  split_ifs <;> simp_all

theorem libSetattr_name (l : LibraryObj) (f : String) (v : PyVal)
    (h : f ≠ "name") : (libSetattr l f v).name = l.name := by
  unfold libSetattr
  split_ifs <;> simp_all

theorem libSetattr_description (l : LibraryObj) (f : String) (v : PyVal)
    (h : f ≠ "description") : (libSetattr l f v).description = l.description := by
  unfold libSetattr
  split_ifs <;> simp_all

theorem libSetattr_metadata (l : LibraryObj) (f : String) (v : PyVal)
    (h : f ≠ "metadata") : (libSetattr l f v).metadata = l.metadata := by
  unfold libSetattr
  split_ifs <;> simp_all

theorem libSetattr_documents (l : LibraryObj) (f : String) (v : PyVal)
    (h : f ≠ "documents") : (libSetattr l f v).documents = l.documents := by
  unfold libSetattr
  split_ifs <;> simp_all

theorem libSetattr_index_type (l : LibraryObj) (f : String) (v : PyVal)
    (h : f ≠ "index_type") : (libSetattr l f v).index_type = l.index_type := by
  unfold libSetattr
  split_ifs <;> simp_all

theorem libSetattr_index_built_at (l : LibraryObj) (f : String) (v : PyVal)
    (h : f ≠ "index_built_at") : (libSetattr l f v).index_built_at = l.index_built_at := by
  unfold libSetattr
  split_ifs <;> simp_all

theorem libSetattr_updated_at (l : LibraryObj) (f : String) (v : PyVal)
    (h : f ≠ "updated_at") : (libSetattr l f v).updated_at = l.updated_at := by
  unfold libSetattr
  split_ifs <;> simp_all

set_option maxHeartbeats 1600000 in
theorem libGetattr_setattr_ne (l : LibraryObj) (f : String) (v : PyVal)
    (f2 : String) (h : f2 ≠ f) :
    libGetattr (libSetattr l f v) f2 = libGetattr l f2 := by
  have hf : ∀ s : String, f2 = s → f ≠ s := fun s hs hfs => h (by rw [hs, hfs])
  unfold libGetattr
  split_ifs with g1 g2 g3 g4 g5 g6 g7 g8 g9
  · rw [libSetattr_id l f v (hf _ g1)]
  · rw [libSetattr_name l f v (hf _ g2)]
  · rw [libSetattr_description l f v (hf _ g3)]
  · rw [libSetattr_metadata l f v (hf _ g4)]
  · rw [libSetattr_documents l f v (hf _ g5)]
  · rw [libSetattr_index_type l f v (hf _ g6)]
  · rw [libSetattr_index_built_at l f v (hf _ g7)]
  · rw [libSetattr_created_at l f v (hf _ g8)]
  · rw [libSetattr_updated_at l f v (hf _ g9)]
  · rfl

theorem libUpdateLoop_id (us : List (String × PyVal)) :
    ∀ (l : LibraryObj),
      (us.foldl (fun acc fv =>
        if (libGetattr acc fv.1).isSome && !(fv.1 = "id" || fv.1 = "created_at")
        then libSetattr acc fv.1 fv.2 else acc) l).id = l.id := by
  induction us with
  | nil => intro l; rfl
  | cons u t ih =>
    intro l
    simp only [List.foldl_cons]
    rw [ih]
    split_ifs with hc
    · simp only [Bool.and_eq_true, Bool.not_eq_true', Bool.or_eq_false_iff,
        decide_eq_false_iff_not] at hc
      exact libSetattr_id l u.1 u.2 hc.2.1
    · rfl

theorem libUpdateLoop_created_at (us : List (String × PyVal)) :
    ∀ (l : LibraryObj),
      (us.foldl (fun acc fv =>
        if (libGetattr acc fv.1).isSome && !(fv.1 = "id" || fv.1 = "created_at")
        then libSetattr acc fv.1 fv.2 else acc) l).created_at = l.created_at := by
  induction us with
  | nil => intro l; rfl
  | cons u t ih =>
    intro l
    simp only [List.foldl_cons]
    rw [ih]
    split_ifs with hc
    · simp only [Bool.and_eq_true, Bool.not_eq_true', Bool.or_eq_false_iff,
        decide_eq_false_iff_not] at hc
      exact libSetattr_created_at l u.1 u.2 hc.2.2
    · rfl

theorem libUpdateLoop_getattr (us : List (String × PyVal)) (f : String)
    (hf : f ∉ us.map Prod.fst) :
    ∀ (l : LibraryObj),
      libGetattr (us.foldl (fun acc fv =>
        if (libGetattr acc fv.1).isSome && !(fv.1 = "id" || fv.1 = "created_at")
        then libSetattr acc fv.1 fv.2 else acc) l) f = libGetattr l f := by
  induction us with
  | nil => intro l; rfl
  | cons u t ih =>
    intro l
    simp only [List.map_cons, List.mem_cons] at hf
    push_neg at hf
    simp only [List.foldl_cons]
    rw [ih hf.2]
    split_ifs with hc
    · exact libGetattr_setattr_ne l u.1 u.2 f hf.1
    · rfl

theorem updateLibraryObj_frame (l : LibraryObj) (us : List (String × PyVal))
    (now : PyVal) :
    (updateLibraryObj l us now).id = l.id ∧
    (updateLibraryObj l us now).created_at = l.created_at ∧
    ∀ f, f ∉ us.map Prod.fst → f ≠ "updated_at" →
      libGetattr (updateLibraryObj l us now) f = libGetattr l f := by
  unfold updateLibraryObj
  refine ⟨libUpdateLoop_id us l, libUpdateLoop_created_at us l, ?_⟩
  intro f hf hfu
  have hset : ∀ (x : LibraryObj) (v : PyVal),
      ({ x with updated_at := v } : LibraryObj) = libSetattr x "updated_at" v := by
    intro x v
    rfl
  rw [hset]
  rw [libGetattr_setattr_ne _ _ _ f hfu]
  exact libUpdateLoop_getattr us f hf l

theorem docSetattr_id (d : DocumentObj) (f : String) (v : PyVal)
    (h : f ≠ "id") : (docSetattr d f v).id = d.id := by
  unfold docSetattr
  split_ifs <;> simp_all

theorem docSetattr_created_at (d : DocumentObj) (f : String) (v : PyVal)
    (h : f ≠ "created_at") : (docSetattr d f v).created_at = d.created_at := by
  unfold docSetattr
  split_ifs <;> simp_all

theorem docSetattr_name (l : DocumentObj) (f : String) (v : PyVal)
    (h : f ≠ "name") : (docSetattr l f v).name = l.name := by
  unfold docSetattr
  split_ifs <;> simp_all

theorem docSetattr_metadata (l : DocumentObj) (f : String) (v : PyVal)
    (h : f ≠ "metadata") : (docSetattr l f v).metadata = l.metadata := by
  unfold docSetattr
  split_ifs <;> simp_all

theorem docSetattr_chunks (l : DocumentObj) (f : String) (v : PyVal)
    (h : f ≠ "chunks") : (docSetattr l f v).chunks = l.chunks := by
  unfold docSetattr
  split_ifs <;> simp_all

theorem docSetattr_updated_at (l : DocumentObj) (f : String) (v : PyVal)
    (h : f ≠ "updated_at") : (docSetattr l f v).updated_at = l.updated_at := by
  unfold docSetattr
  split_ifs <;> simp_all

set_option maxHeartbeats 1600000 in
theorem docGetattr_setattr_ne (d : DocumentObj) (f : String) (v : PyVal)
    (f2 : String) (h : f2 ≠ f) :
    docGetattr (docSetattr d f v) f2 = docGetattr d f2 := by
  have hf : ∀ s : String, f2 = s → f ≠ s := fun s hs hfs => h (by rw [hs, hfs])
  unfold docGetattr
  split_ifs with g1 g2 g3 g4 g5 g6
  · rw [docSetattr_id d f v (hf _ g1)]
  · rw [docSetattr_name d f v (hf _ g2)]
  · rw [docSetattr_metadata d f v (hf _ g3)]
  · rw [docSetattr_chunks d f v (hf _ g4)]
  · rw [docSetattr_created_at d f v (hf _ g5)]
  · rw [docSetattr_updated_at d f v (hf _ g6)]
  · rfl

theorem docUpdateLoop_id (us : List (String × PyVal)) :
    ∀ (d : DocumentObj),
      (us.foldl (fun acc fv =>
        if (docGetattr acc fv.1).isSome && !(fv.1 = "id" || fv.1 = "created_at")
        then docSetattr acc fv.1 fv.2 else acc) d).id = d.id := by
  induction us with
  | nil => intro d; rfl
  | cons u t ih =>
    intro d
    simp only [List.foldl_cons]
    rw [ih]
    split_ifs with hc
    · simp only [Bool.and_eq_true, Bool.not_eq_true', Bool.or_eq_false_iff,
        decide_eq_false_iff_not] at hc
      exact docSetattr_id d u.1 u.2 hc.2.1
    · rfl

theorem docUpdateLoop_created_at (us : List (String × PyVal)) :
    ∀ (d : DocumentObj),
      (us.foldl (fun acc fv =>
        if (docGetattr acc fv.1).isSome && !(fv.1 = "id" || fv.1 = "created_at")
        then docSetattr acc fv.1 fv.2 else acc) d).created_at = d.created_at := by
  induction us with
  | nil => intro d; rfl
  | cons u t ih =>
    intro d
    simp only [List.foldl_cons]
    rw [ih]
    split_ifs with hc
    · simp only [Bool.and_eq_true, Bool.not_eq_true', Bool.or_eq_false_iff,
        decide_eq_false_iff_not] at hc
      exact docSetattr_created_at d u.1 u.2 hc.2.2
    · rfl

theorem docUpdateLoop_getattr (us : List (String × PyVal)) (f : String)
    (hf : f ∉ us.map Prod.fst) :
    ∀ (d : DocumentObj),
      docGetattr (us.foldl (fun acc fv =>
        if (docGetattr acc fv.1).isSome && !(fv.1 = "id" || fv.1 = "created_at")
        then docSetattr acc fv.1 fv.2 else acc) d) f = docGetattr d f := by
  induction us with
  | nil => intro d; rfl
  | cons u t ih =>
    intro d
    simp only [List.map_cons, List.mem_cons] at hf
    push_neg at hf
    simp only [List.foldl_cons]
    rw [ih hf.2]
    split_ifs with hc
    · exact docGetattr_setattr_ne d u.1 u.2 f hf.1
    · rfl

theorem updateDocumentObj_frame (d : DocumentObj) (us : List (String × PyVal))
    (now : PyVal) :
    (updateDocumentObj d us now).id = d.id ∧
    (updateDocumentObj d us now).created_at = d.created_at ∧
    ∀ f, f ∉ us.map Prod.fst → f ≠ "updated_at" →
      docGetattr (updateDocumentObj d us now) f = docGetattr d f := by
  unfold updateDocumentObj
  refine ⟨docUpdateLoop_id us d, docUpdateLoop_created_at us d, ?_⟩
  intro f hf hfu
  have hset : ∀ (x : DocumentObj) (v : PyVal),
      ({ x with updated_at := v } : DocumentObj) = docSetattr x "updated_at" v := by
    intro x v
    rfl
  rw [hset]
  rw [docGetattr_setattr_ne _ _ _ f hfu]
  exact docUpdateLoop_getattr us f hf d

/-- C10.  `update_library` and `update_document` never change the target's
`id` or `created_at` — entries named `"id"` or `"created_at"` in the updates
mapping are skipped by the loop — and apart from the fields actually named in
the updates, only `updated_at` is modified. -/
theorem c10_update_preserves_id_created_at :
    (∀ (data : List (String × LibraryObj)) (libId : String)
      (us : List (String × PyVal)) (now : PyVal)
      (res : List (String × LibraryObj) × LibraryObj) (lib0 : LibraryObj),
      data.lookup libId = some lib0 →
      updateLibraryDB data libId us now = some res →
      res.2.id = lib0.id ∧ res.2.created_at = lib0.created_at ∧
        ∀ f, f ∉ us.map Prod.fst → f ≠ "updated_at" →
          libGetattr res.2 f = libGetattr lib0 f) ∧
    (∀ (lib : LibraryDocsObj) (docId : String) (us : List (String × PyVal))
      (now : PyVal) (res : LibraryDocsObj × DocumentObj) (doc0 : DocumentObj),
      lib.documents.find? (fun d => pyEq d.id (.str docId)) = some doc0 →
      updateDocumentDB lib docId us now = some res →
      res.2.id = doc0.id ∧ res.2.created_at = doc0.created_at ∧
        ∀ f, f ∉ us.map Prod.fst → f ≠ "updated_at" →
          docGetattr res.2 f = docGetattr doc0 f) := by
  constructor
  · intro data libId us now res lib0 hlk hupd
    unfold updateLibraryDB at hupd
    rw [hlk] at hupd
    simp only [Option.some.injEq] at hupd
    have hres2 : res.2 = updateLibraryObj lib0 us now := by
      rw [← hupd]
    rw [hres2]
    exact updateLibraryObj_frame lib0 us now
  · intro lib docId us now res doc0 hfind hupd
    unfold updateDocumentDB at hupd
    rw [hfind] at hupd
    simp only [Option.some.injEq] at hupd
    have hres2 : res.2 = updateDocumentObj doc0 us now := by
      rw [← hupd]
    rw [hres2]
    exact updateDocumentObj_frame doc0 us now

/-- Witness for C10: updating `sampleLibObj` with entries for `id`, `name`
and `created_at` leaves `description` (a field not named in the updates)
unchanged. -/
theorem c10_witness :
    libGetattr { sampleLibObj with
      name := PyVal.str "n2"
      updated_at := PyVal.num 99 } "description" =
      libGetattr sampleLibObj "description" :=
  (c10_update_preserves_id_created_at.1 [("L1", sampleLibObj)] "L1"
    [("id", .num 99), ("name", .str "n2"), ("created_at", .num 0)] (.num 99)
    (assocSet [("L1", sampleLibObj)] "L1"
      { sampleLibObj with
        name := PyVal.str "n2"
        updated_at := PyVal.num 99 },
      { sampleLibObj with
        name := PyVal.str "n2"
        updated_at := PyVal.num 99 })
    sampleLibObj
    (by simp [List.lookup])
    (by norm_num +decide [updateLibraryDB, updateLibraryObj, libGetattr,
      libSetattr, sampleLibObj, List.lookup])).2.2
    "description" (by simp) (by simp)
